import Mathlib

/-!
Verification of the url-migrations-checker repository.

The development shallowly embeds the TypeScript sources:
* `src/utils/soft404.ts` (soft-404 scoring, title matching, Dice similarity),
* `src/utils/http.ts` (the direct and FlareSolverr fetch strategies),
* `src/crawler.ts` (the breadth-first crawl loop and URL normalization),
* `src/validator.ts` (per-URL validation verdicts),
* `src/utils/html-parser.ts` (URL helpers).

Strings are processed as `List Char` (modelling JavaScript strings; the
UTF-16/astral-plane distinction is out of scope).  Fractional scores are
modelled in `ℚ`.  Network and HTML-parsing effects are supplied by oracle
functions, and the platform's WHATWG `URL` class is modelled by an explicit
parser for the `scheme://host/path?query#fragment` subset.
-/

namespace UrlCheck

/-! ## Character utilities -/

/-- Whitespace class modelling the JavaScript regexp class backslash-s
(space, tab, newline, carriage return, vertical tab, form feed,
no-break space, BOM). -/
def jsWs (c : Char) : Bool :=
  c == ' ' || c == '\t' || c == '\n' || c == '\r' ||
  c == '\x0B' || c == '\x0C' || c == ' ' || c == '﻿'

/-- ASCII lower-casing, modelling `String.prototype.toLowerCase` on the
basic-latin range (the only range the embedded algorithms depend on). -/
def asciiLower (c : Char) : Char :=
  if 65 ≤ c.toNat ∧ c.toNat ≤ 90 then Char.ofNat (c.toNat + 32) else c

/-- Lower-case a JavaScript string (as a character list). -/
def lowerL (l : List Char) : List Char := l.map asciiLower

/-- Word characters of the JavaScript regexp class backslash-w:
ASCII letters, digits and underscore. -/
def jsWordChar (c : Char) : Bool :=
  (65 ≤ c.toNat && c.toNat ≤ 90) || (97 ≤ c.toNat && c.toNat ≤ 122) ||
  (48 ≤ c.toNat && c.toNat ≤ 57) || c == '_'

/-- ASCII letter test (used by the URL-scheme model). -/
def isAsciiLetter (c : Char) : Bool :=
  (65 ≤ c.toNat && c.toNat ≤ 90) || (97 ≤ c.toNat && c.toNat ≤ 122)

/-- Collapse every maximal whitespace run into a single space, modelling
`replace(/\s+/g, ' ')`. -/
def collapseWs (l : List Char) : List Char :=
  l.foldr
    (fun c acc =>
      if jsWs c then (if acc.head? = some ' ' then acc else ' ' :: acc)
      else c :: acc) []

/-- Strip leading and trailing whitespace, modelling `String.prototype.trim`. -/
def trimWs (l : List Char) : List Char :=
  ((l.dropWhile jsWs).reverse.dropWhile jsWs).reverse

/-! ## A small regular-expression engine

Models the JavaScript `RegExp.prototype.test` semantics (unanchored search)
for the alternation/option/star/character-class fragment that the soft-404
pattern lists use.  Matching is by Brzozowski derivatives. -/

inductive RE where
  | emp : RE
  | eps : RE
  | cls (p : Char → Bool) : RE
  | seq (r1 r2 : RE) : RE
  | alt (r1 r2 : RE) : RE
  | star (r : RE) : RE

def RE.nullable : RE → Bool
  | .emp => false
  | .eps => true
  | .cls _ => false
  | .seq a b => a.nullable && b.nullable
  | .alt a b => a.nullable || b.nullable
  | .star _ => true

/-- Simplifying sequence constructor (keeps derivatives small). -/
def RE.mkSeq : RE → RE → RE
  | .emp, _ => .emp
  | .eps, r => r
  | a, b => .seq a b

/-- Simplifying alternation constructor. -/
def RE.mkAlt : RE → RE → RE
  | .emp, r => r
  | a, .emp => a
  | a, b => .alt a b

def RE.deriv : RE → Char → RE
  | .emp, _ => .emp
  | .eps, _ => .emp
  | .cls p, c => if p c then .eps else .emp
  | .seq a b, c =>
      if a.nullable then RE.mkAlt (RE.mkSeq (a.deriv c) b) (b.deriv c)
      else RE.mkSeq (a.deriv c) b
  | .alt a b, c => RE.mkAlt (a.deriv c) (b.deriv c)
  | .star r, c => RE.mkSeq (r.deriv c) (.star r)

/-- Does `r` match some (possibly empty) leading segment of `l`? -/
def RE.matchesInit (r : RE) : List Char → Bool
  | [] => r.nullable
  | c :: rest => r.nullable || (r.deriv c).matchesInit rest

/-- Unanchored search, modelling `RegExp.prototype.test`. -/
def reTest (r : RE) : List Char → Bool
  | [] => r.nullable
  | c :: rest => r.matchesInit (c :: rest) || reTest r rest

/-- Literal string pattern. -/
def reStr (s : String) : RE :=
  s.data.foldr (fun c acc => RE.seq (RE.cls (fun d => d == c)) acc) RE.eps

/-- Concatenation of a pattern list. -/
def reCat (l : List RE) : RE := l.foldr RE.seq RE.eps

/-- `\s*` -/
def wsStar : RE := RE.star (RE.cls jsWs)

/-- Optional fragment `(...)?`. -/
def reOpt (r : RE) : RE := RE.alt RE.eps r

/-- `.` of a JavaScript regexp without the dotAll flag (any character other
than a line terminator). -/
def reDot : RE := RE.cls (fun c => !(c == '\n' || c == '\r' || c == ' ' || c == ' '))

/-- The apostrophe character (U+0027). -/
def apos : Char := Char.ofNat 39

/-! ## Soft-404 detection (`src/utils/soft404.ts`) -/

/-- `BODY_ERROR_PATTERNS` from `soft404.ts`, written over lower-case input
(the caller lower-cases the body, and every pattern carries the `i` flag). -/
def BODY_ERROR_PATTERNS : List RE :=
  [ reCat [reStr "page", wsStar, reStr "not", wsStar, reStr "found"],
    reCat [reStr "404", wsStar, reOpt (reStr "error")],
    reCat [reStr "not", wsStar, reStr "found"],
    reCat [reStr "doesn", reOpt (RE.cls (fun d => d == apos)), reStr "t", wsStar, reStr "exist"],
    reCat [reStr "does", wsStar, reStr "not", wsStar, reStr "exist"],
    reCat [reStr "no", wsStar, reStr "longer", wsStar,
           RE.alt (reStr "available") (reCat [reStr "exist", reOpt (reStr "s")])],
    reCat [reStr "cannot", wsStar, reStr "be", wsStar, reStr "found"],
    reCat [reStr "could", wsStar, reStr "not", wsStar, reOpt (reCat [reStr "be", wsStar]), reStr "found"],
    reCat [reStr "we", wsStar, reStr "couldn", reOpt (RE.cls (fun d => d == apos)), reStr "t", wsStar, reStr "find"],
    reCat [reStr "page", wsStar,
           reOpt (reCat [reStr "you", reOpt (reCat [reOpt (RE.cls (fun d => d == apos)), reStr "re"]),
                         wsStar, reOpt (reCat [reStr "looking", wsStar, reStr "for", wsStar])]),
           reStr "is", wsStar, reStr "missing"],
    reCat [reStr "this", wsStar, reStr "page", wsStar,
           reOpt (reCat [reStr "has", wsStar, reStr "been", wsStar]),
           RE.alt (reStr "moved") (RE.alt (reStr "removed") (reStr "deleted"))],
    reStr "oops",
    reCat [reStr "sorry", RE.star reDot, reStr "page"],
    reCat [reStr "nothing", wsStar, RE.alt (reStr "here") (reStr "found")] ]

/-- `TITLE_ERROR_PATTERNS` from `soft404.ts` (matched case-insensitively, so
written over lower-cased input). -/
def TITLE_ERROR_PATTERNS : List RE :=
  [ reStr "404",
    reCat [reStr "not", wsStar, reStr "found"],
    reCat [reStr "page", wsStar, reStr "not", wsStar, reStr "found"],
    reStr "error",
    reStr "missing",
    reStr "oops" ]

/-- Strip HTML tags, modelling `replace(/<[^>]*>/g, '')`: each `<` with a
later `>` is removed together with everything up to that first `>`. -/
def stripTags : List Char → List Char
  | [] => []
  | '<' :: rest =>
      if rest.contains '>' then stripTags ((rest.dropWhile (fun c => !(c == '>'))).tail)
      else '<' :: rest
  | c :: rest => c :: stripTags rest
termination_by l => l.length
decreasing_by
  · simp only [List.length_cons]
    have h1 : (rest.dropWhile (fun c => !(c == '>'))).length ≤ rest.length :=
      (List.dropWhile_sublist _).length_le
    have h2 : (rest.dropWhile (fun c => !(c == '>'))).tail.length ≤
        (rest.dropWhile (fun c => !(c == '>'))).length := by
      cases rest.dropWhile (fun c => !(c == '>')) <;> simp
    omega
  · simp only [List.length_cons]; omega

structure Soft404CheckResult where
  isSoft404 : Bool
  confidence : ℚ
  reasons : List String
deriving Repr, DecidableEq

/-- `MIN_CONTENT_LENGTH` -/
def MIN_CONTENT_LENGTH : Nat := 500

/-- `SOFT_404_THRESHOLD` -/
def SOFT_404_THRESHOLD : ℚ := 1/2

/-- The title check of `checkSoft404`: the title is truthy (present and
nonempty) and matches one of `TITLE_ERROR_PATTERNS`. -/
def titleTruthyHit (title : Option String) : Bool :=
  match title with
  | some t => !t.data.isEmpty && TITLE_ERROR_PATTERNS.any (fun r => reTest r (lowerL t.data))
  | none => false

/-- The title condition as claim C1 words it (no truthiness guard; an empty
title cannot match any pattern, so this agrees with `titleTruthyHit`). -/
def titleMatchesErrorPattern (title : Option String) : Bool :=
  match title with
  | some t => TITLE_ERROR_PATTERNS.any (fun r => reTest r (lowerL t.data))
  | none => false

/-- Number of `BODY_ERROR_PATTERNS` matching the case-folded body
(the `bodyMatchCount` loop of `checkSoft404`). -/
def bodyErrorMatchCount (body : String) : Nat :=
  (BODY_ERROR_PATTERNS.filter (fun r => reTest r (lowerL body.data))).length

/-- The tag-stripped, whitespace-collapsed, trimmed text (the `textContent`
computation of `checkSoft404`). -/
def textContentOf (body : String) : List Char :=
  trimWs (collapseWs (stripTags body.data))

/-- Length of the tag-stripped, whitespace-collapsed, trimmed text. -/
def strippedTextLength (body : String) : Nat :=
  (textContentOf body).length

/-- The additive score of `checkSoft404` for a 200 response: the four
signals in source order (title pattern, body patterns, short raw body,
short stripped text). -/
def soft404Score (body : String) (title : Option String) : ℚ :=
  (if titleTruthyHit title then (2/5 : ℚ) else 0) +
  (if 0 < bodyErrorMatchCount body then
     min ((3/10 : ℚ) + bodyErrorMatchCount body * (1/10)) (1/2) else 0) +
  (if body.data.length < MIN_CONTENT_LENGTH then (1/5 : ℚ) else 0) +
  (if (textContentOf body).length < 100 then (3/10 : ℚ) else 0)

/-- The reasons list of `checkSoft404`, in source order. -/
def soft404Reasons (body : String) (title : Option String) : List String :=
  (if titleTruthyHit title then
     ["Title matches error pattern: \"" ++ title.getD "" ++ "\""] else []) ++
  (if 0 < bodyErrorMatchCount body then ["Body contains error indicator"] else []) ++
  (if body.data.length < MIN_CONTENT_LENGTH then
     ["Short content length: " ++ toString body.data.length ++ " chars"] else []) ++
  (if (textContentOf body).length < 100 then
     ["Very little text content: " ++ toString (textContentOf body).length ++ " chars"] else [])

/-- `checkSoft404` from `soft404.ts`.  `title = none` models a `null` title;
a present title is skipped when empty (the JavaScript truthiness test). -/
def checkSoft404 (body : String) (title : Option String) (statusCode : Int) : Soft404CheckResult :=
  if statusCode = 404 then ⟨false, 0, []⟩
  else if statusCode ≠ 200 then ⟨false, 0, []⟩
  else
    ⟨decide (SOFT_404_THRESHOLD ≤ min (soft404Score body title) 1),
     min (soft404Score body title) 1, soft404Reasons body title⟩

lemma titleTruthyHit_eq (title : Option String) :
    titleTruthyHit title = titleMatchesErrorPattern title := by
  cases title with
  | none => rfl
  | some t =>
      show (!t.data.isEmpty && TITLE_ERROR_PATTERNS.any fun r => reTest r (lowerL t.data)) =
        (TITLE_ERROR_PATTERNS.any fun r => reTest r (lowerL t.data))
      cases ht : t.data with
      | nil => decide
      | cons c cs => simp

/-! ## Title comparison (`src/utils/soft404.ts`) -/

/-- The title normalization of `titlesMatch`: lower-case, collapse whitespace,
strip characters outside `[\w\s]`, trim. -/
def normalizeTitle (l : List Char) : List Char :=
  trimWs ((collapseWs (lowerL l)).filter (fun c => jsWordChar c || jsWs c))

/-- Character bigrams of a string, modelling `substring(i, i + 2)`. -/
def bigrams : List Char → List (Char × Char)
  | a :: b :: rest => (a, b) :: bigrams (b :: rest)
  | _ => []

/-- The second loop of `calculateSimilarity`: walk the bigrams of the second
string, consuming matching counts from the first string's bigram map. -/
def diceConsume (f : Char × Char → Nat) : List (Char × Char) → Nat
  | [] => 0
  | b :: rest =>
      if 0 < f b then diceConsume (fun x => if x = b then f b - 1 else f x) rest + 1
      else diceConsume f rest

/-- Occurrence count of a bigram (the `bigrams1` map of
`calculateSimilarity`). -/
def countPair (b : Char × Char) (l : List (Char × Char)) : Nat :=
  (l.filter (fun x => x = b)).length

/-- `calculateSimilarity` from `soft404.ts` (Sørensen–Dice over character
bigrams with multiset intersection). -/
def calculateSimilarity (s1 s2 : List Char) : ℚ :=
  if s1 = s2 then 1
  else if s1.length < 2 ∨ s2.length < 2 then 0
  else
    let inter := diceConsume (fun b => countPair b (bigrams s1)) (bigrams s2)
    2 * inter / ((s1.length : ℚ) + s2.length - 2)

/-- JavaScript falsiness of an optional string (`null` or empty). -/
def strFalsy : Option String → Bool
  | none => true
  | some s => s.data.isEmpty

/-- `titlesMatch` from `soft404.ts`. -/
def titlesMatch (sourceTitle destTitle : Option String) : Bool :=
  if strFalsy sourceTitle && strFalsy destTitle then true
  else if strFalsy sourceTitle || strFalsy destTitle then false
  else
    let ns := normalizeTitle (sourceTitle.getD "").data
    let nd := normalizeTitle (destTitle.getD "").data
    if ns = nd then true
    else if decide (ns <:+: nd) || decide (nd <:+: ns) then true
    else decide (calculateSimilarity ns nd > 4/5)

/-! Reference formulations used to state claims about `titlesMatch`. -/

/-- The title normalization as claim C2 words it: lower-case, collapse
whitespace, strip non-alphanumeric/non-space characters (no trim, and
underscore is not kept). -/
def normalizeTitleClaim (l : List Char) : List Char :=
  (collapseWs (lowerL l)).filter (fun c => c.isAlphanum || jsWs c)

/-- The Dice coefficient as claim C2 words it, with a literal multiset
bigram intersection. -/
def diceMultiset (a b : List Char) : ℚ :=
  if a = b then 1
  else if a.length < 2 ∨ b.length < 2 then 0
  else 2 * ((bigrams a : Multiset (Char × Char)) ∩ (bigrams b : Multiset (Char × Char))).card /
       ((a.length : ℚ) + b.length - 2)

/-- `titlesMatch` as claim C2 words it. -/
def titlesMatchClaim (a b : Option String) : Bool :=
  if strFalsy a && strFalsy b then true
  else if (a.isNone && !b.isNone) || (!a.isNone && b.isNone) then false
  else
    let na := normalizeTitleClaim (a.getD "").data
    let nb := normalizeTitleClaim (b.getD "").data
    decide (na = nb) || decide (na <:+: nb) || decide (nb <:+: na) || decide (diceMultiset na nb > 4/5)

/-! ## Fetch layer (`src/utils/http.ts`) -/

structure FetchResult where
  statusCode : Int
  body : String
  finalUrl : String
  wasRedirected : Bool
  responseTimeMs : Nat
  error : Option String
deriving Repr, DecidableEq

/-- The outcome of one network attempt, supplied as an oracle value:
an HTTP response (with `response.url`), an abort-timeout, or a thrown
error carrying its message. -/
inductive Attempt where
  | success (status : Int) (body : String) (responseUrl : String) (timeMs : Nat)
  | timeout (timeMs : Nat)
  | fail (message : String) (timeMs : Nat)

/-- Instrumented result of `fetchUrl`: the returned outcome, the backoff
sleeps performed between attempts, and the number of attempts made. -/
structure FetchRun where
  result : FetchResult
  sleeps : List Nat
  attempts : Nat
deriving Repr, DecidableEq

/-- `lastError?.message || 'Unknown error'` of the exhausted-retries
outcome. -/
def lastErrMessage : Option String → String
  | some m => if m.isEmpty then "Unknown error" else m
  | none => "Unknown error"

/-- The retry loop of `fetchUrl`.  `a` is the JavaScript `attempt` counter
value at the loop head; `oracle n` is what the `n`-th attempt's `fetch`
does. -/
def fetchLoop (url : String) (timeoutMs retries : Nat) (oracle : Nat → Attempt)
    (a : Nat) (lastErr : Option String) : FetchRun :=
  if a ≤ retries then
    match oracle (a + 1) with
    | .success st bd ru t =>
        ⟨{ statusCode := st, body := bd,
           finalUrl := if ru.isEmpty then url else ru,
           wasRedirected := decide ((if ru.isEmpty then url else ru) ≠ url),
           responseTimeMs := t, error := none }, [], 1⟩
    | .timeout t =>
        ⟨{ statusCode := 0, body := "", finalUrl := url, wasRedirected := false,
           responseTimeMs := t,
           error := some ("Request timeout after " ++ toString timeoutMs ++ "ms") }, [], 1⟩
    | .fail m _ =>
        let rest := fetchLoop url timeoutMs retries oracle (a + 1) (some m)
        ⟨rest.result,
         (if a + 1 ≤ retries then [min (1000 * (a + 1)) 3000] else []) ++ rest.sleeps,
         rest.attempts + 1⟩
  else
    ⟨{ statusCode := 0, body := "", finalUrl := url, wasRedirected := false,
       responseTimeMs := 0, error := some (lastErrMessage lastErr) }, [], 0⟩
termination_by retries + 1 - a

/-- `fetchUrl` from `http.ts` (the direct strategy), instrumented with the
sleeps and attempt count. -/
def fetchUrl (url : String) (timeoutMs retries : Nat) (oracle : Nat → Attempt) : FetchRun :=
  fetchLoop url timeoutMs retries oracle 0 none

def isSuccessStatus (s : Int) : Bool := decide (200 ≤ s ∧ s < 300)

def isRedirectStatus (s : Int) : Bool := decide (300 ≤ s ∧ s < 400)

def isClientErrorStatus (s : Int) : Bool := decide (400 ≤ s ∧ s < 500)

def isServerErrorStatus (s : Int) : Bool := decide (500 ≤ s ∧ s < 600)

/-- What the single FlareSolverr round trip does, as an oracle value:
the POST threw, the POST returned a non-ok HTTP status, the solver
reported an error envelope, or it produced a solution. -/
inductive FlareAttempt where
  | thrown (message : String) (timeMs : Nat)
  | httpError (status : Int) (timeMs : Nat)
  | solverError (message : String) (timeMs : Nat)
  | solved (status : Int) (response : String) (solutionUrl : String) (timeMs : Nat)

/-- `fetchUrlWithFlareSolverr` from `http.ts` (the delegated-rendering
strategy; exactly one attempt). -/
def fetchUrlWithFlareSolverr (url : String) (fa : FlareAttempt) : FetchResult :=
  match fa with
  | .thrown m t =>
      { statusCode := 0, body := "", finalUrl := url, wasRedirected := false,
        responseTimeMs := t,
        error := some (if m.isEmpty then "FlareSolverr request failed" else m) }
  | .httpError st t =>
      { statusCode := 0, body := "", finalUrl := url, wasRedirected := false,
        responseTimeMs := t,
        error := some ("FlareSolverr HTTP error: " ++ toString st) }
  | .solverError m t =>
      { statusCode := 0, body := "", finalUrl := url, wasRedirected := false,
        responseTimeMs := t, error := some ("FlareSolverr error: " ++ m) }
  | .solved st resp su t =>
      { statusCode := st, body := resp, finalUrl := su,
        wasRedirected := decide (su ≠ url), responseTimeMs := t, error := none }

/-! ## The diceConsume loop computes the multiset bigram intersection -/

lemma diceConsume_eq_inter_card (l2 : List (Char × Char)) :
    ∀ m : Multiset (Char × Char),
      diceConsume (fun b => m.count b) l2 = (m ∩ (l2 : Multiset (Char × Char))).card := by
  induction l2 with
  | nil => intro m; simp [diceConsume]
  | cons b rest ih =>
      intro m
      rw [diceConsume]
      by_cases hb : 0 < m.count b
      · rw [if_pos hb]
        have hfun : (fun x => if x = b then m.count b - 1 else m.count x) =
            fun x => (m.erase b).count x := by
          funext x
          by_cases hx : x = b
          · subst hx; simp
          · simp [hx, Multiset.count_erase_of_ne hx]
        have hmem : b ∈ m := Multiset.count_pos.mp hb
        rw [hfun, ih (m.erase b)]
        have hco : ((b :: rest : List (Char × Char)) : Multiset (Char × Char)) =
            b ::ₘ (rest : Multiset (Char × Char)) := rfl
        rw [hco, Multiset.inter_comm m (b ::ₘ (rest : Multiset (Char × Char))),
          Multiset.cons_inter_of_pos _ hmem, Multiset.card_cons,
          Multiset.inter_comm ((rest : Multiset (Char × Char)))]
      · rw [if_neg hb]
        have hmem : b ∉ m := by
          simpa [Multiset.count_pos] using hb
        have hco : ((b :: rest : List (Char × Char)) : Multiset (Char × Char)) =
            b ::ₘ (rest : Multiset (Char × Char)) := rfl
        rw [ih m, hco, Multiset.inter_comm m (b ::ₘ (rest : Multiset (Char × Char))),
          Multiset.cons_inter_of_neg _ hmem,
          Multiset.inter_comm ((rest : Multiset (Char × Char)))]

lemma countPair_eq_count (b : Char × Char) :
    ∀ l : List (Char × Char), countPair b l = Multiset.count b (l : Multiset (Char × Char)) := by
  intro l
  induction l with
  | nil => simp [countPair]
  | cons c cs ih =>
      unfold countPair at ih ⊢
      rw [List.filter_cons]
      have hco : ((c :: cs : List (Char × Char)) : Multiset (Char × Char)) = c ::ₘ ↑cs := rfl
      by_cases hc : c = b
      · subst hc
        rw [if_pos (by simp), List.length_cons, hco, Multiset.count_cons_self, ih]
      · rw [if_neg (by simp [hc]), hco, Multiset.count_cons_of_ne (fun h => hc h.symm), ih]

lemma calculateSimilarity_eq_diceMultiset (a b : List Char) :
    calculateSimilarity a b = diceMultiset a b := by
  unfold calculateSimilarity diceMultiset
  by_cases hab : a = b
  · simp [hab]
  · by_cases hl : a.length < 2 ∨ b.length < 2
    · simp [hab, hl]
    · simp only [hab, hl, if_false]
      have hcnt : (fun bb => countPair bb (bigrams a)) =
          fun bb => Multiset.count bb ((bigrams a : Multiset (Char × Char))) :=
        funext fun bb => countPair_eq_count bb (bigrams a)
      rw [hcnt, diceConsume_eq_inter_card]

lemma calculateSimilarity_symm (a b : List Char) :
    calculateSimilarity a b = calculateSimilarity b a := by
  rw [calculateSimilarity_eq_diceMultiset, calculateSimilarity_eq_diceMultiset]
  unfold diceMultiset
  by_cases hab : a = b
  · simp [hab]
  · have hba : ¬b = a := fun h => hab h.symm
    by_cases hl : a.length < 2 ∨ b.length < 2
    · have hl' : b.length < 2 ∨ a.length < 2 := hl.symm
      simp [hab, hba, hl, hl']
    · have hl' : ¬(b.length < 2 ∨ a.length < 2) := fun h => hl h.symm
      simp only [hab, hba, hl, hl', if_false]
      rw [Multiset.inter_comm]
      ring_nf

/-! ## Claim theorems: C1, C2, C9 -/

lemma titlesMatch_char (a b : Option String) :
    titlesMatch a b = true ↔
      ((strFalsy a = true ∧ strFalsy b = true) ∨
       (strFalsy a = false ∧ strFalsy b = false ∧
         (normalizeTitle (a.getD "").data = normalizeTitle (b.getD "").data ∨
          normalizeTitle (a.getD "").data <:+: normalizeTitle (b.getD "").data ∨
          normalizeTitle (b.getD "").data <:+: normalizeTitle (a.getD "").data ∨
          diceMultiset (normalizeTitle (a.getD "").data) (normalizeTitle (b.getD "").data)
            > 4/5))) := by
  unfold titlesMatch
  rcases hfa : strFalsy a <;> rcases hfb : strFalsy b
  · simp only [Bool.false_and, Bool.false_or, Bool.false_eq_true, if_false]
    rw [calculateSimilarity_eq_diceMultiset]
    by_cases heq : normalizeTitle (a.getD "").data = normalizeTitle (b.getD "").data
    · simp [heq, hfa, hfb]
    · by_cases h1 : normalizeTitle (a.getD "").data <:+: normalizeTitle (b.getD "").data <;>
        by_cases h2 : normalizeTitle (b.getD "").data <:+: normalizeTitle (a.getD "").data <;>
          simp [heq, h1, h2, hfa, hfb]
  · simp [hfa, hfb]
  · simp [hfa, hfb]
  · simp [hfa, hfb]

/-- C1: `checkSoft404` returns `isSoft404 = false`, confidence `0` and no
reasons for every status code other than `200` (including a literal `404`);
for status `200` its confidence is `min` of `1` and the sum of `2/5` for a
title error-pattern hit, `min (3/10 + matchCount/10) (1/2)` when at least one
body error-phrase pattern matches, `1/5` for a body shorter than 500
characters and `3/10` for tag-stripped collapsed text shorter than 100
characters; and the page is flagged as a soft 404 exactly when the confidence
is at least `1/2`. -/
theorem c1_checkSoft404_scoring (body : String) (title : Option String) (statusCode : Int) :
    (statusCode ≠ 200 → checkSoft404 body title statusCode = ⟨false, 0, []⟩) ∧
    (statusCode = 200 →
      (checkSoft404 body title statusCode).confidence =
        min ((if titleMatchesErrorPattern title then (2/5 : ℚ) else 0) +
             (if 1 ≤ bodyErrorMatchCount body then
                min ((3/10 : ℚ) + bodyErrorMatchCount body * (1/10)) (1/2) else 0) +
             (if body.data.length < 500 then (1/5 : ℚ) else 0) +
             (if strippedTextLength body < 100 then (3/10 : ℚ) else 0)) 1) ∧
    ((checkSoft404 body title statusCode).isSoft404 =
      decide ((1/2 : ℚ) ≤ (checkSoft404 body title statusCode).confidence)) := by
  have hbranch : statusCode ≠ 200 → checkSoft404 body title statusCode = ⟨false, 0, []⟩ := by
    intro h
    by_cases h4 : statusCode = 404
    · simp [checkSoft404, h4]
    · simp [checkSoft404, h4, h]
  have h200eq : ∀ _ : statusCode = 200,
      checkSoft404 body title statusCode =
        ⟨decide (SOFT_404_THRESHOLD ≤ min (soft404Score body title) 1),
         min (soft404Score body title) 1, soft404Reasons body title⟩ := by
    intro h2
    subst h2
    unfold checkSoft404
    rw [if_neg (by decide), if_neg (by simp)]
  refine ⟨hbranch, ?_, ?_⟩
  · intro h
    rw [h200eq h]
    show min (soft404Score body title) 1 = _
    unfold soft404Score
    rw [titleTruthyHit_eq]
    rfl
  · by_cases h : statusCode = 200
    · rw [h200eq h]
      rfl
    · rw [hbranch h]
      norm_num

/-- C1 witness: a literal 404 status is never flagged as a soft 404. -/
theorem c1_witness : checkSoft404 "" none 404 = ⟨false, 0, []⟩ :=
  (c1_checkSoft404_scoring "" none 404).1 (by decide)

lemma diceMultiset_ne (a b : List Char) (hab : a ≠ b) (ha : ¬(a.length < 2 ∨ b.length < 2)) :
    diceMultiset a b =
      2 * (((bigrams a : Multiset (Char × Char)) ∩ (bigrams b : Multiset (Char × Char))).card : ℚ) /
        ((a.length : ℚ) + b.length - 2) := by
  unfold diceMultiset
  rw [if_neg hab, if_neg ha]

/-- C2 counterexample: the claim's reading of `titlesMatch` disagrees with
the implementation on three inputs: an empty-but-present title is treated by
the code as a mismatch (not compared by containment), underscores are kept by
the code's normalization, and the code's normalization trims the result. -/
theorem c2_titlesMatch_counterexample :
    titlesMatch (some "") (some "x") ≠ titlesMatchClaim (some "") (some "x") ∧
    titlesMatch (some "a_b") (some "ab") ≠ titlesMatchClaim (some "a_b") (some "ab") ∧
    titlesMatch (some "x ") (some " x") ≠ titlesMatchClaim (some "x ") (some " x") := by
  refine ⟨by decide, ?_, ?_⟩
  · have hc : titlesMatchClaim (some "a_b") (some "ab") = true := by decide
    have hm : titlesMatch (some "a_b") (some "ab") = false := by
      rw [← Bool.not_eq_true, titlesMatch_char]
      intro hcon
      rcases hcon with ⟨h1, _⟩ | ⟨_, _, h3⟩
      · exact absurd h1 (by decide)
      · rcases h3 with h3 | h3 | h3 | h3
        · exact absurd h3 (by decide)
        · exact absurd h3 (by decide)
        · exact absurd h3 (by decide)
        · rw [diceMultiset_ne _ _ (by decide) (by decide)] at h3
          rw [show ((bigrams (normalizeTitle ((some "a_b").getD "").data) : Multiset (Char × Char)) ∩
                (bigrams (normalizeTitle ((some "ab").getD "").data) : Multiset (Char × Char))).card
              = 0 from by decide] at h3
          norm_num at h3
    rw [hm, hc]
    decide
  · have hm : titlesMatch (some "x ") (some " x") = true := by decide
    have hc : titlesMatchClaim (some "x ") (some " x") = false := by
      unfold titlesMatchClaim
      rw [if_neg (by decide), if_neg (by decide)]
      have hna : normalizeTitleClaim ((some "x " : Option String).getD "").data = ['x', ' '] := by
        decide
      have hnb : normalizeTitleClaim ((some " x" : Option String).getD "").data = [' ', 'x'] := by
        decide
      simp only [hna, hnb]
      rw [show decide ((['x', ' '] : List Char) = [' ', 'x']) = false from by decide,
        show decide ((['x', ' '] : List Char) <:+: [' ', 'x']) = false from by decide,
        show decide (([' ', 'x'] : List Char) <:+: ['x', ' ']) = false from by decide]
      rw [show decide (diceMultiset ['x', ' '] [' ', 'x'] > 4/5) = false from ?_]
      · rfl
      · rw [decide_eq_false_iff_not]
        rw [diceMultiset_ne _ _ (by decide) (by decide)]
        rw [show (((bigrams ['x', ' '] : Multiset (Char × Char)) ∩
            (bigrams [' ', 'x'] : Multiset (Char × Char))).card) = 0 from by decide]
        norm_num
    rw [hm, hc]
    decide

/-- C2 (amended): `titlesMatch` returns true when both titles are absent or
empty, false when exactly one is absent or empty, and otherwise true exactly
when the normalized titles (lower-cased, whitespace-collapsed, stripped of
characters outside word characters and whitespace, then trimmed) are equal,
one contains the other, or their multiset-bigram Sørensen–Dice coefficient
exceeds `4/5`. -/
theorem c2_titlesMatch_amended (a b : Option String) :
    titlesMatch a b = true ↔
      ((strFalsy a = true ∧ strFalsy b = true) ∨
       (strFalsy a = false ∧ strFalsy b = false ∧
         (normalizeTitle (a.getD "").data = normalizeTitle (b.getD "").data ∨
          normalizeTitle (a.getD "").data <:+: normalizeTitle (b.getD "").data ∨
          normalizeTitle (b.getD "").data <:+: normalizeTitle (a.getD "").data ∨
          diceMultiset (normalizeTitle (a.getD "").data) (normalizeTitle (b.getD "").data)
            > 4/5))) :=
  titlesMatch_char a b

/-- C9: `titlesMatch` is symmetric, and the underlying Dice similarity is
symmetric even though the bigram multiset is built only from the first
argument. -/
theorem c9_titlesMatch_symm :
    (∀ a b : Option String, titlesMatch a b = titlesMatch b a) ∧
    (∀ s1 s2 : List Char, calculateSimilarity s1 s2 = calculateSimilarity s2 s1) := by
  refine ⟨?_, calculateSimilarity_symm⟩
  intro a b
  have hsym : ∀ x y : Option String,
      (strFalsy x = true ∧ strFalsy y = true) ∨
       (strFalsy x = false ∧ strFalsy y = false ∧
         (normalizeTitle (x.getD "").data = normalizeTitle (y.getD "").data ∨
          normalizeTitle (x.getD "").data <:+: normalizeTitle (y.getD "").data ∨
          normalizeTitle (y.getD "").data <:+: normalizeTitle (x.getD "").data ∨
          diceMultiset (normalizeTitle (x.getD "").data) (normalizeTitle (y.getD "").data)
            > 4/5)) →
      (strFalsy y = true ∧ strFalsy x = true) ∨
       (strFalsy y = false ∧ strFalsy x = false ∧
         (normalizeTitle (y.getD "").data = normalizeTitle (x.getD "").data ∨
          normalizeTitle (y.getD "").data <:+: normalizeTitle (x.getD "").data ∨
          normalizeTitle (x.getD "").data <:+: normalizeTitle (y.getD "").data ∨
          diceMultiset (normalizeTitle (y.getD "").data) (normalizeTitle (x.getD "").data)
            > 4/5)) := by
    intro x y h
    rcases h with ⟨h1, h2⟩ | ⟨h1, h2, h3⟩
    · exact Or.inl ⟨h2, h1⟩
    · refine Or.inr ⟨h2, h1, ?_⟩
      rw [← calculateSimilarity_eq_diceMultiset, calculateSimilarity_symm,
        calculateSimilarity_eq_diceMultiset] at h3
      rcases h3 with h3 | h3 | h3 | h3
      · exact Or.inl h3.symm
      · exact Or.inr (Or.inr (Or.inl h3))
      · exact Or.inr (Or.inl h3)
      · exact Or.inr (Or.inr (Or.inr h3))
  have h := titlesMatch_char a b
  have h2 := titlesMatch_char b a
  rcases hab : titlesMatch a b
  · rcases hba : titlesMatch b a
    · rfl
    · exact absurd (h.mpr (hsym b a (h2.mp hba))) (by simp [hab])
  · rw [h2.mpr (hsym a b (h.mp hab))]
/-! ## Claim theorems: C3, C4 (fetch layer) -/

lemma fetchLoop_step_success (url : String) (tmo retries : Nat) (oracle : Nat → Attempt)
    (a : Nat) (lastErr : Option String) (st : Int) (bd ru : String) (t : Nat)
    (ha : a ≤ retries) (hm : oracle (a + 1) = .success st bd ru t) :
    fetchLoop url tmo retries oracle a lastErr =
      ⟨{ statusCode := st, body := bd,
         finalUrl := if ru.isEmpty then url else ru,
         wasRedirected := decide ((if ru.isEmpty then url else ru) ≠ url),
         responseTimeMs := t, error := none }, [], 1⟩ := by
  rw [fetchLoop.eq_def, if_pos ha, hm]

lemma fetchLoop_step_timeout (url : String) (tmo retries : Nat) (oracle : Nat → Attempt)
    (a : Nat) (lastErr : Option String) (t : Nat)
    (ha : a ≤ retries) (hm : oracle (a + 1) = .timeout t) :
    fetchLoop url tmo retries oracle a lastErr =
      ⟨{ statusCode := 0, body := "", finalUrl := url, wasRedirected := false,
         responseTimeMs := t,
         error := some ("Request timeout after " ++ toString tmo ++ "ms") }, [], 1⟩ := by
  rw [fetchLoop.eq_def, if_pos ha, hm]

lemma fetchLoop_step_fail (url : String) (tmo retries : Nat) (oracle : Nat → Attempt)
    (a : Nat) (lastErr : Option String) (m : String) (t : Nat)
    (ha : a ≤ retries) (hm : oracle (a + 1) = .fail m t) :
    fetchLoop url tmo retries oracle a lastErr =
      ⟨(fetchLoop url tmo retries oracle (a + 1) (some m)).result,
       (if a + 1 ≤ retries then [min (1000 * (a + 1)) 3000] else []) ++
         (fetchLoop url tmo retries oracle (a + 1) (some m)).sleeps,
       (fetchLoop url tmo retries oracle (a + 1) (some m)).attempts + 1⟩ := by
  rw [fetchLoop.eq_def, if_pos ha, hm]

lemma fetchLoop_step_stop (url : String) (tmo retries : Nat) (oracle : Nat → Attempt)
    (a : Nat) (lastErr : Option String) (ha : ¬a ≤ retries) :
    fetchLoop url tmo retries oracle a lastErr =
      ⟨{ statusCode := 0, body := "", finalUrl := url, wasRedirected := false,
         responseTimeMs := 0, error := some (lastErrMessage lastErr) }, [], 0⟩ := by
  rw [fetchLoop.eq_def, if_neg ha]

lemma fetchLoop_timeout (url : String) (tmo retries : Nat) (oracle : Nat → Attempt) :
    ∀ (d a : Nat) (lastErr : Option String),
      a + d ≤ retries →
      (∀ i, a < i → i ≤ a + d → ∃ m t, oracle i = .fail m t) →
      (∃ t, oracle (a + d + 1) = .timeout t) →
      (fetchLoop url tmo retries oracle a lastErr).result.statusCode = 0 ∧
      (fetchLoop url tmo retries oracle a lastErr).result.error =
        some ("Request timeout after " ++ toString tmo ++ "ms") ∧
      (fetchLoop url tmo retries oracle a lastErr).attempts = d + 1 ∧
      (fetchLoop url tmo retries oracle a lastErr).sleeps =
        (List.range d).map (fun k => min (1000 * (a + 1 + k)) 3000) := by
  intro d
  induction d with
  | zero =>
      intro a lastErr hle _ ht
      obtain ⟨t, ht⟩ := ht
      rw [show a + 0 + 1 = a + 1 from by omega] at ht
      rw [fetchLoop_step_timeout url tmo retries oracle a lastErr t (by omega) ht]
      simp
  | succ d ih =>
      intro a lastErr hle hfail ht
      obtain ⟨m, tm, hm⟩ := hfail (a + 1) (by omega) (by omega)
      rw [fetchLoop_step_fail url tmo retries oracle a lastErr m tm (by omega) hm]
      have hrest := ih (a + 1) (some m) (by omega)
        (fun i hi1 hi2 => hfail i (by omega) (by omega))
        (by obtain ⟨t, ht'⟩ := ht
            exact ⟨t, by rw [show a + 1 + d + 1 = a + (d + 1) + 1 from by omega]; exact ht'⟩)
      refine ⟨hrest.1, hrest.2.1, ?_, ?_⟩
      · show (fetchLoop url tmo retries oracle (a + 1) (some m)).attempts + 1 = d + 1 + 1
        rw [hrest.2.2.1]
      · show (if a + 1 ≤ retries then [min (1000 * (a + 1)) 3000] else []) ++
          (fetchLoop url tmo retries oracle (a + 1) (some m)).sleeps = _
        rw [hrest.2.2.2, if_pos (by omega), List.range_succ_eq_map]
        simp only [List.map_cons, List.map_map, List.singleton_append]
        refine List.cons_eq_cons.mpr ⟨?_, ?_⟩
        · show min (1000 * (a + 1)) 3000 = min (1000 * (a + 1 + 0)) 3000
          omega
        · apply List.map_congr_left
          intro k _
          simp only [Function.comp_apply]
          omega

lemma fetchLoop_exhaust (url : String) (tmo retries : Nat) (oracle : Nat → Attempt) :
    ∀ (d a : Nat) (lastErr : Option String),
      a + d = retries + 1 →
      1 ≤ d →
      (∀ i, a < i → i ≤ retries + 1 → ∃ m t, oracle i = .fail m t) →
      (fetchLoop url tmo retries oracle a lastErr).result.statusCode = 0 ∧
      (∀ m t, oracle (retries + 1) = .fail m t →
        (fetchLoop url tmo retries oracle a lastErr).result.error =
          some (if m.isEmpty then "Unknown error" else m)) ∧
      (fetchLoop url tmo retries oracle a lastErr).attempts = d ∧
      (fetchLoop url tmo retries oracle a lastErr).sleeps =
        (List.range (d - 1)).map (fun k => min (1000 * (a + 1 + k)) 3000) := by
  intro d
  induction d with
  | zero => intro a lastErr _ h1 _; omega
  | succ d ih =>
      intro a lastErr hsum _ hfail
      obtain ⟨m, tm, hm⟩ := hfail (a + 1) (by omega) (by omega)
      rw [fetchLoop_step_fail url tmo retries oracle a lastErr m tm (by omega) hm]
      by_cases hd : d = 0
      · subst hd
        rw [fetchLoop_step_stop url tmo retries oracle (a + 1) (some m) (by omega)]
        refine ⟨rfl, ?_, rfl, ?_⟩
        · intro m' t' hm'
          rw [show retries + 1 = a + 1 from by omega, hm] at hm'
          injection hm' with h1 h2
          subst h1
          rfl
        · rw [if_neg (by omega)]
          simp
      · have hrest := ih (a + 1) (some m) (by omega) (by omega)
          (fun i hi1 hi2 => hfail i (by omega) hi2)
        refine ⟨hrest.1, hrest.2.1, ?_, ?_⟩
        · show (fetchLoop url tmo retries oracle (a + 1) (some m)).attempts + 1 = d + 1
          rw [hrest.2.2.1]
        · show (if a + 1 ≤ retries then [min (1000 * (a + 1)) 3000] else []) ++
            (fetchLoop url tmo retries oracle (a + 1) (some m)).sleeps = _
          rw [hrest.2.2.2, if_pos (by omega)]
          rw [show d + 1 - 1 = (d - 1) + 1 from by omega, List.range_succ_eq_map]
          simp only [List.map_cons, List.map_map, List.singleton_append]
          refine List.cons_eq_cons.mpr ⟨?_, ?_⟩
          · show min (1000 * (a + 1)) 3000 = min (1000 * (a + 1 + 0)) 3000
            omega
          · apply List.map_congr_left
            intro k _
            simp only [Function.comp_apply]
            omega

lemma fetchLoop_attempts_le (url : String) (tmo retries : Nat) (oracle : Nat → Attempt) :
    ∀ (k a : Nat) (lastErr : Option String), retries + 1 - a ≤ k →
      (fetchLoop url tmo retries oracle a lastErr).attempts ≤ k := by
  intro k
  induction k with
  | zero =>
      intro a lastErr hk
      rw [fetchLoop_step_stop url tmo retries oracle a lastErr (by omega)]
  | succ k ih =>
      intro a lastErr hk
      by_cases ha : a ≤ retries
      · rcases ho : oracle (a + 1) with ⟨st, bd, ru, t⟩ | ⟨t⟩ | ⟨m, t⟩
        · rw [fetchLoop_step_success url tmo retries oracle a lastErr st bd ru t ha ho]
          simp
        · rw [fetchLoop_step_timeout url tmo retries oracle a lastErr t ha ho]
          simp
        · rw [fetchLoop_step_fail url tmo retries oracle a lastErr m t ha ho]
          show (fetchLoop url tmo retries oracle (a + 1) (some m)).attempts + 1 ≤ k + 1
          have := ih (a + 1) (some m) (by omega)
          omega
      · rw [fetchLoop_step_stop url tmo retries oracle a lastErr ha]
        exact Nat.zero_le _

/-- C3: the direct fetch strategy makes at most `retries` additional attempts
after non-timeout failures, sleeping `min (1000 * attemptNumber) 3000`
milliseconds between attempts; a timeout is terminal (never retried, no
backoff after it) and yields statusCode 0 with a descriptive message; and
exhausting all attempts yields statusCode 0 with the last error's message. -/
theorem c3_fetchUrl_retry_policy (url : String) (tmo retries : Nat) (oracle : Nat → Attempt) :
    ((fetchUrl url tmo retries oracle).attempts ≤ retries + 1) ∧
    (∀ j, 1 ≤ j → j ≤ retries + 1 →
      (∀ i, 1 ≤ i → i < j → ∃ m t, oracle i = .fail m t) →
      (∃ t, oracle j = .timeout t) →
      (fetchUrl url tmo retries oracle).result.statusCode = 0 ∧
      (fetchUrl url tmo retries oracle).result.error =
        some ("Request timeout after " ++ toString tmo ++ "ms") ∧
      (fetchUrl url tmo retries oracle).attempts = j ∧
      (fetchUrl url tmo retries oracle).sleeps =
        (List.range (j - 1)).map (fun k => min (1000 * (k + 1)) 3000)) ∧
    ((∀ i, 1 ≤ i → i ≤ retries + 1 → ∃ m t, oracle i = .fail m t) →
      (fetchUrl url tmo retries oracle).result.statusCode = 0 ∧
      (∀ m t, oracle (retries + 1) = .fail m t →
        (fetchUrl url tmo retries oracle).result.error =
          some (if m.isEmpty then "Unknown error" else m)) ∧
      (fetchUrl url tmo retries oracle).attempts = retries + 1 ∧
      (fetchUrl url tmo retries oracle).sleeps =
        (List.range retries).map (fun k => min (1000 * (k + 1)) 3000)) := by
  have hmap : ∀ d : Nat, (List.range d).map (fun k => min (1000 * (0 + 1 + k)) 3000) =
      (List.range d).map (fun k => min (1000 * (k + 1)) 3000) := by
    intro d
    apply List.map_congr_left
    intro k _
    omega
  refine ⟨fetchLoop_attempts_le url tmo retries oracle (retries + 1) 0 none (by omega),
    ?_, ?_⟩
  · intro j hj1 hj2 hfail ht
    have h := fetchLoop_timeout url tmo retries oracle (j - 1) 0 none (by omega)
      (fun i hi1 hi2 => hfail i (by omega) (by omega))
      (by obtain ⟨t, ht'⟩ := ht
          exact ⟨t, by rw [show 0 + (j - 1) + 1 = j from by omega]; exact ht'⟩)
    refine ⟨h.1, h.2.1, ?_, ?_⟩
    · rw [show (fetchUrl url tmo retries oracle).attempts =
        (fetchLoop url tmo retries oracle 0 none).attempts from rfl, h.2.2.1]
      omega
    · rw [show (fetchUrl url tmo retries oracle).sleeps =
        (fetchLoop url tmo retries oracle 0 none).sleeps from rfl, h.2.2.2, hmap]
  · intro hfail
    have h := fetchLoop_exhaust url tmo retries oracle (retries + 1) 0 none (by omega)
      (by omega) (fun i hi1 hi2 => hfail i (by omega) hi2)
    refine ⟨h.1, h.2.1, ?_, ?_⟩
    · exact h.2.2.1
    · rw [show (fetchUrl url tmo retries oracle).sleeps =
        (fetchLoop url tmo retries oracle 0 none).sleeps from rfl, h.2.2.2,
        show retries + 1 - 1 = retries from by omega, hmap]

/-- C3 witness: with `retries = 1` and every attempt failing, the outcome
carries statusCode 0 and exactly 2 attempts are made. -/
theorem c3_witness :
    (fetchUrl "http://a" 5 1 (fun _ => .fail "crash" 7)).result.statusCode = 0 ∧
    (fetchUrl "http://a" 5 1 (fun _ => .fail "crash" 7)).attempts = 2 := by
  have h := (c3_fetchUrl_retry_policy "http://a" 5 1 (fun _ => .fail "crash" 7)).2.2
    (fun i _ _ => ⟨"crash", 7, rfl⟩)
  exact ⟨h.1, h.2.2.1⟩

lemma fetchLoop_shape (url : String) (tmo retries : Nat) (oracle : Nat → Attempt) :
    ∀ (k a : Nat) (lastErr : Option String), retries + 1 - a ≤ k →
      ((fetchLoop url tmo retries oracle a lastErr).result.error.isSome = true →
        (fetchLoop url tmo retries oracle a lastErr).result.statusCode = 0 ∧
        (fetchLoop url tmo retries oracle a lastErr).result.body = "" ∧
        (fetchLoop url tmo retries oracle a lastErr).result.finalUrl = url ∧
        (fetchLoop url tmo retries oracle a lastErr).result.wasRedirected = false) ∧
      ((fetchLoop url tmo retries oracle a lastErr).result.error = none →
        ∃ st bd ru t j, oracle j = .success st bd ru t ∧
          (fetchLoop url tmo retries oracle a lastErr).result =
            ⟨st, bd, if ru.isEmpty then url else ru,
             decide ((if ru.isEmpty then url else ru) ≠ url), t, none⟩) := by
  intro k
  induction k with
  | zero =>
      intro a lastErr hk
      rw [fetchLoop_step_stop url tmo retries oracle a lastErr (by omega)]
      exact ⟨fun _ => ⟨rfl, rfl, rfl, rfl⟩, fun h => by simp at h⟩
  | succ k ih =>
      intro a lastErr hk
      by_cases ha : a ≤ retries
      · rcases ho : oracle (a + 1) with ⟨st, bd, ru, t⟩ | ⟨t⟩ | ⟨m, t⟩
        · rw [fetchLoop_step_success url tmo retries oracle a lastErr st bd ru t ha ho]
          exact ⟨fun h => by simp at h, fun _ => ⟨st, bd, ru, t, a + 1, ho, rfl⟩⟩
        · rw [fetchLoop_step_timeout url tmo retries oracle a lastErr t ha ho]
          exact ⟨fun _ => ⟨rfl, rfl, rfl, rfl⟩, fun h => by simp at h⟩
        · rw [fetchLoop_step_fail url tmo retries oracle a lastErr m t ha ho]
          exact ih (a + 1) (some m) (by omega)
      · rw [fetchLoop_step_stop url tmo retries oracle a lastErr ha]
        exact ⟨fun _ => ⟨rfl, rfl, rfl, rfl⟩, fun h => by simp at h⟩

/-- C4: every outcome of either fetch strategy is fully populated: either the
error field is set and `statusCode` is 0 (with empty body, the requested URL
as final URL and no redirect), or the error is absent and the HTTP fields all
come from the response. -/
theorem c4_outcome_shape (url : String) (tmo retries : Nat) (oracle : Nat → Attempt)
    (fa : FlareAttempt) :
    (((fetchUrl url tmo retries oracle).result.error.isSome = true →
        (fetchUrl url tmo retries oracle).result.statusCode = 0 ∧
        (fetchUrl url tmo retries oracle).result.body = "" ∧
        (fetchUrl url tmo retries oracle).result.finalUrl = url ∧
        (fetchUrl url tmo retries oracle).result.wasRedirected = false) ∧
     ((fetchUrl url tmo retries oracle).result.error = none →
        ∃ st bd ru t j, oracle j = .success st bd ru t ∧
          (fetchUrl url tmo retries oracle).result =
            ⟨st, bd, if ru.isEmpty then url else ru,
             decide ((if ru.isEmpty then url else ru) ≠ url), t, none⟩)) ∧
    (((fetchUrlWithFlareSolverr url fa).error.isSome = true →
        (fetchUrlWithFlareSolverr url fa).statusCode = 0 ∧
        (fetchUrlWithFlareSolverr url fa).body = "" ∧
        (fetchUrlWithFlareSolverr url fa).finalUrl = url ∧
        (fetchUrlWithFlareSolverr url fa).wasRedirected = false) ∧
     ((fetchUrlWithFlareSolverr url fa).error = none →
        ∃ st resp su t, fa = .solved st resp su t ∧
          fetchUrlWithFlareSolverr url fa =
            ⟨st, resp, su, decide (su ≠ url), t, none⟩)) := by
  refine ⟨fetchLoop_shape url tmo retries oracle (retries + 1) 0 none (by omega), ?_, ?_⟩
  · intro h
    cases fa <;> simp [fetchUrlWithFlareSolverr] at h ⊢
  · intro h
    cases fa with
    | thrown m t => simp [fetchUrlWithFlareSolverr] at h
    | httpError st t => simp [fetchUrlWithFlareSolverr] at h
    | solverError m t => simp [fetchUrlWithFlareSolverr] at h
    | solved st resp su t => exact ⟨st, resp, su, t, rfl, rfl⟩

/-- C4 witness: a thrown FlareSolverr request yields an error outcome with
statusCode 0. -/
theorem c4_witness :
    (fetchUrlWithFlareSolverr "http://a" (.thrown "boom" 3)).statusCode = 0 :=
  ((c4_outcome_shape "http://a" 5 1 (fun _ => .fail "x" 0) (.thrown "boom" 3)).2.1 rfl).1

/-! ## A model of the platform WHATWG `URL` class

The crawler and validator use the runtime's `URL` parser.  It is modelled
here for the `scheme://host/path?query#fragment` subset: schemes are ASCII
letters, authorities with userinfo or ports are rejected, scheme and host
are lower-cased, and percent-encoding and dot-segment removal are not
modelled.  A failed parse models a thrown `TypeError`. -/

structure UrlModel where
  scheme : List Char
  host : List Char
  path : List Char
  query : Option (List Char)
  frag : Option (List Char)
deriving Repr, DecidableEq

/-- Path component of a path-query-fragment reference (up to the first `?`
or `#`). -/
def refPath (l : List Char) : List Char :=
  l.takeWhile (fun c => !(c == '?' || c == '#'))

/-- Query component of a path-query-fragment reference. -/
def refQuery (l : List Char) : Option (List Char) :=
  match l.dropWhile (fun c => !(c == '?' || c == '#')) with
  | '?' :: q => some (q.takeWhile (fun c => !(c == '#')))
  | _ => none

/-- Fragment component of a path-query-fragment reference. -/
def refFrag (l : List Char) : Option (List Char) :=
  match l.dropWhile (fun c => !(c == '?' || c == '#')) with
  | '?' :: q =>
      match q.dropWhile (fun c => !(c == '#')) with
      | '#' :: f => some f
      | _ => none
  | '#' :: f => some f
  | _ => none

/-- The `URL` parser model (`new URL(s)`); `none` models a throw. -/
def parseUrlL (l : List Char) : Option UrlModel :=
  match l.dropWhile (fun c => !(c == ':')) with
  | ':' :: '/' :: '/' :: r3 =>
      if (l.takeWhile (fun c => !(c == ':'))).isEmpty ||
         !(l.takeWhile (fun c => !(c == ':'))).all isAsciiLetter then none
      else
        if (r3.takeWhile (fun c => !(c == '/' || c == '?' || c == '#'))).isEmpty ||
           (r3.takeWhile (fun c => !(c == '/' || c == '?' || c == '#'))).any
             (fun c => c == ':' || c == '@') then none
        else
          some ⟨lowerL (l.takeWhile (fun c => !(c == ':'))),
                lowerL (r3.takeWhile (fun c => !(c == '/' || c == '?' || c == '#'))),
                if (refPath (r3.dropWhile (fun c => !(c == '/' || c == '?' || c == '#')))).isEmpty
                then ['/']
                else refPath (r3.dropWhile (fun c => !(c == '/' || c == '?' || c == '#'))),
                refQuery (r3.dropWhile (fun c => !(c == '/' || c == '?' || c == '#'))),
                refFrag (r3.dropWhile (fun c => !(c == '/' || c == '?' || c == '#')))⟩
  | _ => none

/-- The `URL` serializer model (`url.href`). -/
def serializeUrlL (u : UrlModel) : List Char :=
  u.scheme ++ (':' :: '/' :: '/' ::
    (u.host ++ (u.path ++
      ((match u.query with | some q => '?' :: q | none => []) ++
       (match u.frag with | some f => '#' :: f | none => [])))))

/-- Split a query string on `&` (the `URLSearchParams` tokenizer). -/
def splitAmp : List Char → List (List Char)
  | [] => [[]]
  | c :: rest =>
      if c == '&' then [] :: splitAmp rest
      else
        match splitAmp rest with
        | s :: ss => (c :: s) :: ss
        | [] => [[c]]

/-- Split one `name=value` segment at the first `=`. -/
def parsePair (seg : List Char) : List Char × List Char :=
  (seg.takeWhile (fun c => !(c == '=')),
   match seg.dropWhile (fun c => !(c == '=')) with
   | d :: v => if d == '=' then v else []
   | [] => [])

/-- The `URLSearchParams` list of a URL's query. -/
def parseQuery : Option (List Char) → List (List Char × List Char)
  | none => []
  | some q => ((splitAmp q).filter (fun seg => !seg.isEmpty)).map parsePair

/-- Join segments with `&`. -/
def joinAmp : List (List Char) → List Char
  | [] => []
  | [p] => p
  | p :: q :: ps => p ++ '&' :: joinAmp (q :: ps)

/-- The `URLSearchParams` serializer (without percent-encoding). -/
def serializePairs (ps : List (List Char × List Char)) : List Char :=
  joinAmp (ps.map (fun p => p.1 ++ '=' :: p.2))

/-- Comparison by parameter name, as `URLSearchParams.sort` orders. -/
def pairLe (p q : List Char × List Char) : Prop :=
  (⟨p.1⟩ : String) ≤ (⟨q.1⟩ : String)

instance : DecidableRel pairLe := fun p q =>
  (inferInstance : Decidable ((⟨p.1⟩ : String) ≤ (⟨q.1⟩ : String)))

instance : IsTotal (List Char × List Char) pairLe :=
  ⟨fun a b => le_total (⟨a.1⟩ : String) ⟨b.1⟩⟩

instance : IsTrans (List Char × List Char) pairLe :=
  ⟨fun _ _ _ h1 h2 => le_trans h1 h2⟩

/-- `searchParams.sort()`: a stable sort of the parameter list by name. -/
def sortPairs (ps : List (List Char × List Char)) : List (List Char × List Char) :=
  ps.insertionSort pairLe

/-- The trailing-slash strip of `normalizeUrl`: remove one trailing `/`
from a non-root pathname. -/
def stripSlash (path : List Char) : List Char :=
  if path ≠ ['/'] ∧ path.getLast? = some '/' then path.dropLast else path

/-- The query rewrite performed by `searchParams.sort()` followed by `href`:
the parameter list is sorted and reserialized, and an empty parameter list
sets the query to null. -/
def normQuery (q : Option (List Char)) : Option (List Char) :=
  if (parseQuery q).isEmpty then none
  else some (serializePairs (sortPairs (parseQuery q)))

/-- The per-component normalization of `normalizeUrl` on a parsed URL:
fragment removed, one non-root trailing slash stripped, query parameters
sorted. -/
def normModel (p : UrlModel) : UrlModel :=
  { scheme := p.scheme, host := p.host, path := stripSlash p.path,
    query := normQuery p.query, frag := none }

/-- `normalizeUrl` from `crawler.ts`: strip the fragment, strip one trailing
slash from a non-root path, sort the query parameters, and reserialize;
unparseable input is returned unchanged. -/
def normalizeUrl (s : String) : String :=
  match parseUrlL s.data with
  | none => s
  | some p => ⟨serializeUrlL (normModel p)⟩

/-- `getUrlPath` from `html-parser.ts`: `pathname + search` of a parseable
URL, the raw string otherwise. -/
def getUrlPath (s : String) : String :=
  match parseUrlL s.data with
  | some p =>
      ⟨p.path ++ (match p.query with
                  | some q => if q.isEmpty then [] else '?' :: q
                  | none => [])⟩
  | none => s

/-- `getDomain` from `html-parser.ts`. -/
def getDomain (s : String) : String :=
  match parseUrlL s.data with
  | some p => ⟨p.host⟩
  | none => "unknown"

/-- `new URL(path, base)` for the modelled subset: an absolute reference
wins; otherwise path-absolute, query-only, fragment-only and
last-segment-relative references are resolved against the base.
Dot segments are not modelled. -/
def resolveUrl (path base : String) : Option String :=
  match parseUrlL path.data with
  | some p => some ⟨serializeUrlL p⟩
  | none =>
      match parseUrlL base.data with
      | none => none
      | some b =>
          match path.data with
          | [] => some ⟨serializeUrlL { b with frag := none }⟩
          | '/' :: _ =>
              some ⟨serializeUrlL
                { b with path := if (refPath path.data).isEmpty then ['/'] else refPath path.data,
                         query := refQuery path.data, frag := refFrag path.data }⟩
          | '?' :: _ =>
              some ⟨serializeUrlL
                { b with query := refQuery path.data, frag := refFrag path.data }⟩
          | '#' :: f => some ⟨serializeUrlL { b with frag := some f }⟩
          | _ =>
              let dir := (b.path.reverse.dropWhile (fun c => !(c == '/'))).reverse
              some ⟨serializeUrlL
                { b with path := dir ++ refPath path.data,
                         query := refQuery path.data, frag := refFrag path.data }⟩

/-- `joinUrl` from `html-parser.ts`: `new URL(path, baseUrl).href` with a
string-concatenation fallback when the constructor throws. -/
def joinUrl (baseUrl path : String) : String :=
  match resolveUrl path baseUrl with
  | some href => href
  | none =>
      ⟨(if baseUrl.data.getLast? = some '/' then baseUrl.data.dropLast else baseUrl.data) ++
       (if path.data.head? = some '/' then [] else ['/']) ++ path.data⟩

/-! ## Well-formedness of parsed URLs and the parse-serialize roundtrip -/

lemma toNat_ofNat_valid {n : Nat} (h : n < 55296) : (Char.ofNat n).toNat = n := by
  rw [Char.ofNat, dif_pos (Or.inl h)]
  rfl

lemma asciiLower_toNat_of_upper {c : Char} (h : 65 ≤ c.toNat ∧ c.toNat ≤ 90) :
    (asciiLower c).toNat = c.toNat + 32 := by
  unfold asciiLower
  rw [if_pos h]
  exact toNat_ofNat_valid (by omega)

lemma asciiLower_of_not_upper {c : Char} (h : ¬(65 ≤ c.toNat ∧ c.toNat ≤ 90)) :
    asciiLower c = c := by
  unfold asciiLower
  exact if_neg h

lemma asciiLower_idem (c : Char) : asciiLower (asciiLower c) = asciiLower c := by
  by_cases h : 65 ≤ c.toNat ∧ c.toNat ≤ 90
  · exact asciiLower_of_not_upper (by rw [asciiLower_toNat_of_upper h]; omega)
  · rw [asciiLower_of_not_upper h, asciiLower_of_not_upper h]

lemma lowerL_idem (l : List Char) : lowerL (lowerL l) = lowerL l := by
  unfold lowerL
  rw [List.map_map]
  apply List.map_congr_left
  intro c _
  exact asciiLower_idem c

lemma asciiLower_eq_of_lt65 {c d : Char} (hd : d.toNat < 65) (h : asciiLower c = d) : c = d := by
  by_cases hc : 65 ≤ c.toNat ∧ c.toNat ≤ 90
  · exfalso
    have h2 := asciiLower_toNat_of_upper hc
    rw [h] at h2
    omega
  · rwa [asciiLower_of_not_upper hc] at h

lemma isAsciiLetter_asciiLower {c : Char} (h : isAsciiLetter c = true) :
    isAsciiLetter (asciiLower c) = true := by
  simp only [isAsciiLetter, Bool.or_eq_true, Bool.and_eq_true, decide_eq_true_eq] at h ⊢
  by_cases hc : 65 ≤ c.toNat ∧ c.toNat ≤ 90
  · rw [asciiLower_toNat_of_upper hc]
    omega
  · rw [asciiLower_of_not_upper hc]
    exact h

/-- Characters a host may not contain in the modelled subset. -/
def hostNoSpecial (c : Char) : Bool :=
  !(c == '/' || c == '?' || c == '#' || c == ':' || c == '@')

lemma hostNoSpecial_asciiLower {c : Char} (h : hostNoSpecial c = true) :
    hostNoSpecial (asciiLower c) = true := by
  simp only [hostNoSpecial, Bool.not_eq_true', Bool.or_eq_false_iff, beq_eq_false_iff_ne,
    ne_eq] at h ⊢
  obtain ⟨⟨⟨⟨h1, h2⟩, h3⟩, h4⟩, h5⟩ := h
  refine ⟨⟨⟨⟨?_, ?_⟩, ?_⟩, ?_⟩, ?_⟩ <;> intro he
  · exact h1 (asciiLower_eq_of_lt65 (by decide) he)
  · exact h2 (asciiLower_eq_of_lt65 (by decide) he)
  · exact h3 (asciiLower_eq_of_lt65 (by decide) he)
  · exact h4 (asciiLower_eq_of_lt65 (by decide) he)
  · exact h5 (asciiLower_eq_of_lt65 (by decide) he)

/-- Well-formedness of an optional query component. -/
def QueryOk (o : Option (List Char)) : Prop :=
  match o with
  | none => True
  | some q => q.all (fun c => !(c == '#')) = true

/-- Well-formedness of a `UrlModel`, as produced by `parseUrlL`. -/
def UrlWf (u : UrlModel) : Prop :=
  (u.scheme ≠ [] ∧ u.scheme.all isAsciiLetter = true ∧ lowerL u.scheme = u.scheme) ∧
  (u.host ≠ [] ∧ u.host.all hostNoSpecial = true ∧ lowerL u.host = u.host) ∧
  (u.path.head? = some '/' ∧ u.path.all (fun c => !(c == '?' || c == '#')) = true) ∧
  QueryOk u.query

lemma scheme_pred {c : Char} (h : isAsciiLetter c = true) : (!(c == ':')) = true := by
  simp only [Bool.not_eq_true', beq_eq_false_iff_ne, ne_eq]
  intro hc
  subst hc
  exact absurd h (by decide)

lemma host_pred {c : Char} (h : hostNoSpecial c = true) :
    (!(c == '/' || c == '?' || c == '#')) = true := by
  simp only [hostNoSpecial, Bool.not_eq_true', Bool.or_eq_false_iff, beq_eq_false_iff_ne] at h ⊢
  exact ⟨⟨h.1.1.1.1, h.1.1.1.2⟩, h.1.1.2⟩

lemma path_pred {c : Char} (h : (!(c == '?' || c == '#')) = true) :
    (!(c == '/' || c == '?' || c == '#')) = false → c = '/' := by
  simp only [Bool.not_eq_true', Bool.not_eq_false', Bool.or_eq_false_iff, Bool.or_eq_true,
    beq_eq_false_iff_ne, beq_iff_eq] at h ⊢
  rintro ((h1 | h1) | h1)
  · exact h1
  · exact absurd h1 h.1
  · exact absurd h1 h.2

lemma takeWhile_stop {p : Char → Bool} {l X : List Char} (hl : ∀ c ∈ l, p c = true)
    (hX : ∀ c, X.head? = some c → p c = false) :
    (l ++ X).takeWhile p = l := by
  rw [List.takeWhile_append_of_pos hl]
  cases X with
  | nil => simp
  | cons c cs =>
      rw [List.takeWhile_cons_of_neg (by simp [hX c rfl]), List.append_nil]

lemma dropWhile_stop {p : Char → Bool} {l X : List Char} (hl : ∀ c ∈ l, p c = true)
    (hX : ∀ c, X.head? = some c → p c = false) :
    (l ++ X).dropWhile p = X := by
  rw [List.dropWhile_append_of_pos hl]
  cases X with
  | nil => rfl
  | cons c cs => rw [List.dropWhile_cons_of_neg (by simp [hX c rfl])]

lemma isEmpty_false_of_ne {l : List Char} (h : l ≠ []) : l.isEmpty = false := by
  cases l with
  | nil => exact absurd rfl h
  | cons c cs => rfl

lemma parseUrlL_build (scheme host path rest : List Char)
    (hs1 : scheme ≠ []) (hs2 : scheme.all isAsciiLetter = true)
    (hh1 : host ≠ []) (hh2 : host.all hostNoSpecial = true)
    (hp1 : path.head? = some '/')
    (hp2 : path.all (fun c => !(c == '?' || c == '#')) = true)
    (hrest : rest = [] ∨ rest.head? = some '?' ∨ rest.head? = some '#') :
    parseUrlL (scheme ++ (':' :: '/' :: '/' :: (host ++ (path ++ rest)))) =
      some ⟨lowerL scheme, lowerL host, path, refQuery (path ++ rest), refFrag (path ++ rest)⟩ := by
  obtain ⟨pt, hpt⟩ : ∃ pt, path = '/' :: pt := by
    cases hpath : path with
    | nil => rw [hpath] at hp1; exact absurd hp1 (by simp)
    | cons c cs =>
        rw [hpath] at hp1
        simp only [List.head?_cons, Option.some.injEq] at hp1
        exact ⟨cs, by rw [hp1]⟩
  have hallS : ∀ c ∈ scheme, (fun c => !(c == ':')) c = true := fun c hc =>
    scheme_pred (List.all_eq_true.mp hs2 c hc)
  have hallH : ∀ c ∈ host, (fun c => !(c == '/' || c == '?' || c == '#')) c = true := fun c hc =>
    host_pred (List.all_eq_true.mp hh2 c hc)
  have hallP : ∀ c ∈ path, (fun c => !(c == '?' || c == '#')) c = true := fun c hc =>
    List.all_eq_true.mp hp2 c hc
  have hXrest : ∀ c : Char, rest.head? = some c → (!(c == '?' || c == '#')) = false := by
    intro c hc
    rcases hrest with hr | hr | hr
    · rw [hr] at hc; simp at hc
    · rw [hr] at hc
      simp only [Option.some.injEq] at hc
      subst hc
      decide
    · rw [hr] at hc
      simp only [Option.some.injEq] at hc
      subst hc
      decide
  have t1 : (scheme ++ (':' :: '/' :: '/' :: (host ++ (path ++ rest)))).takeWhile
      (fun c => !(c == ':')) = scheme := by
    apply takeWhile_stop hallS
    intro c hc
    simp only [List.head?_cons, Option.some.injEq] at hc
    subst hc
    decide
  have t2 : (scheme ++ (':' :: '/' :: '/' :: (host ++ (path ++ rest)))).dropWhile
      (fun c => !(c == ':')) = ':' :: '/' :: '/' :: (host ++ (path ++ rest)) := by
    apply dropWhile_stop hallS
    intro c hc
    simp only [List.head?_cons, Option.some.injEq] at hc
    subst hc
    decide
  have hhead : ∀ c : Char, (path ++ rest).head? = some c →
      (!(c == '/' || c == '?' || c == '#')) = false := by
    intro c hc
    rw [hpt, List.cons_append, List.head?_cons] at hc
    simp only [Option.some.injEq] at hc
    subst hc
    decide
  have t3 : (host ++ (path ++ rest)).takeWhile (fun c => !(c == '/' || c == '?' || c == '#')) =
      host := takeWhile_stop hallH hhead
  have t4 : (host ++ (path ++ rest)).dropWhile (fun c => !(c == '/' || c == '?' || c == '#')) =
      path ++ rest := dropWhile_stop hallH hhead
  have t5 : refPath (path ++ rest) = path := by
    unfold refPath
    exact takeWhile_stop hallP hXrest
  have hc1 : (scheme.isEmpty || !scheme.all isAsciiLetter) = false := by
    rw [hs2, isEmpty_false_of_ne hs1]
    rfl
  have hc2 : (host.isEmpty || host.any (fun c => c == ':' || c == '@')) = false := by
    rw [isEmpty_false_of_ne hh1]
    have : host.any (fun c => c == ':' || c == '@') = false := by
      rw [List.any_eq_false]
      intro c hc hcon
      have h2 := List.all_eq_true.mp hh2 c hc
      simp only [hostNoSpecial, Bool.not_eq_true', Bool.or_eq_false_iff] at h2
      rcases (Bool.or_eq_true _ _).mp hcon with h | h
      · exact Bool.false_ne_true (h2.1.2 ▸ h)
      · exact Bool.false_ne_true (h2.2 ▸ h)
    rw [this]
    rfl
  have hc3 : path.isEmpty = false := by
    rw [hpt]
    rfl
  simp only [parseUrlL, t1, t2, hc1, Bool.false_eq_true, if_false, t3, hc2, t4, t5, hc3,
    ite_false]

lemma parse_serializeUrlL (u : UrlModel) (h : UrlWf u) :
    parseUrlL (serializeUrlL u) = some u := by
  obtain ⟨us, uh, up, uq, uf⟩ := u
  obtain ⟨⟨hs1, hs2, hs3⟩, ⟨hh1, hh2, hh3⟩, ⟨hp1, hp2⟩, hq⟩ := h
  have hallP : ∀ c ∈ up, (fun c => !(c == '?' || c == '#')) c = true := fun c hc =>
    List.all_eq_true.mp hp2 c hc
  have hnilstop : ∀ c : Char, ([] : List Char).head? = some c →
      (!(c == '?' || c == '#')) = false := fun c hc => Option.noConfusion hc
  have hhashstop : ∀ (f : List Char) (c : Char), ('#' :: f).head? = some c →
      (!(c == '?' || c == '#')) = false := by
    intro f c hc
    simp only [List.head?_cons, Option.some.injEq] at hc
    subst hc
    decide
  have hqstop : ∀ (t : List Char) (c : Char), ('?' :: t).head? = some c →
      (!(c == '?' || c == '#')) = false := by
    intro t c hc
    simp only [List.head?_cons, Option.some.injEq] at hc
    subst hc
    decide
  have hfnilstop : ∀ c : Char, ([] : List Char).head? = some c →
      (!(c == '#')) = false := fun c hc => Option.noConfusion hc
  have hfhashstop : ∀ (f : List Char) (c : Char), ('#' :: f).head? = some c →
      (!(c == '#')) = false := by
    intro f c hc
    simp only [List.head?_cons, Option.some.injEq] at hc
    subst hc
    decide
  rcases uq with _ | q <;> rcases uf with _ | f
  · have e0 : serializeUrlL ⟨us, uh, up, none, none⟩ =
        us ++ (':' :: '/' :: '/' :: (uh ++ (up ++ []))) := rfl
    rw [e0, parseUrlL_build us uh up [] hs1 hs2 hh1 hh2 hp1 hp2 (Or.inl rfl)]
    have h1 : refQuery (up ++ []) = none := by
      unfold refQuery
      rw [dropWhile_stop hallP hnilstop]
    have h2 : refFrag (up ++ []) = none := by
      unfold refFrag
      rw [dropWhile_stop hallP hnilstop]
    rw [hs3, hh3, h1, h2]
  · have e0 : serializeUrlL ⟨us, uh, up, none, some f⟩ =
        us ++ (':' :: '/' :: '/' :: (uh ++ (up ++ ('#' :: f)))) := rfl
    rw [e0, parseUrlL_build us uh up ('#' :: f) hs1 hs2 hh1 hh2 hp1 hp2 (Or.inr (Or.inr rfl))]
    have h1 : refQuery (up ++ ('#' :: f)) = none := by
      unfold refQuery
      rw [dropWhile_stop hallP (hhashstop f)]
      rfl
    have h2 : refFrag (up ++ ('#' :: f)) = some f := by
      unfold refFrag
      rw [dropWhile_stop hallP (hhashstop f)]
      rfl
    rw [hs3, hh3, h1, h2]
  · have hallQ : ∀ c ∈ q, (fun c => !(c == '#')) c = true := fun c hc =>
      List.all_eq_true.mp hq c hc
    have e0 : serializeUrlL ⟨us, uh, up, some q, none⟩ =
        us ++ (':' :: '/' :: '/' :: (uh ++ (up ++ ('?' :: (q ++ []))))) := rfl
    rw [e0, parseUrlL_build us uh up ('?' :: (q ++ [])) hs1 hs2 hh1 hh2 hp1 hp2
      (Or.inr (Or.inl rfl))]
    have h1 : refQuery (up ++ ('?' :: (q ++ []))) = some q := by
      unfold refQuery
      rw [dropWhile_stop hallP (hqstop (q ++ []))]
      show some (List.takeWhile (fun c => !(c == '#')) (q ++ [])) = some q
      rw [takeWhile_stop hallQ hfnilstop]
    have h2 : refFrag (up ++ ('?' :: (q ++ []))) = none := by
      unfold refFrag
      rw [dropWhile_stop hallP (hqstop (q ++ []))]
      show (match (q ++ []).dropWhile (fun c => !(c == '#')) with
            | '#' :: f => some f
            | _ => none) = none
      rw [dropWhile_stop hallQ hfnilstop]
    rw [hs3, hh3, h1, h2]
  · have hallQ : ∀ c ∈ q, (fun c => !(c == '#')) c = true := fun c hc =>
      List.all_eq_true.mp hq c hc
    have e0 : serializeUrlL ⟨us, uh, up, some q, some f⟩ =
        us ++ (':' :: '/' :: '/' :: (uh ++ (up ++ ('?' :: (q ++ ('#' :: f)))))) := rfl
    rw [e0, parseUrlL_build us uh up ('?' :: (q ++ ('#' :: f))) hs1 hs2 hh1 hh2 hp1 hp2
      (Or.inr (Or.inl rfl))]
    have h1 : refQuery (up ++ ('?' :: (q ++ ('#' :: f)))) = some q := by
      unfold refQuery
      rw [dropWhile_stop hallP (hqstop (q ++ ('#' :: f)))]
      show some (List.takeWhile (fun c => !(c == '#')) (q ++ ('#' :: f))) = some q
      rw [takeWhile_stop hallQ (hfhashstop f)]
    have h2 : refFrag (up ++ ('?' :: (q ++ ('#' :: f)))) = some f := by
      unfold refFrag
      rw [dropWhile_stop hallP (hqstop (q ++ ('#' :: f)))]
      show (match (q ++ ('#' :: f)).dropWhile (fun c => !(c == '#')) with
            | '#' :: f => some f
            | _ => none) = some f
      rw [dropWhile_stop hallQ (hfhashstop f)]
      rfl
    rw [hs3, hh3, h1, h2]

lemma all_takeWhile (p : Char → Bool) (l : List Char) : (l.takeWhile p).all p = true := by
  rw [List.all_eq_true]
  intro c hc
  exact List.mem_takeWhile_imp hc

lemma refQuery_wf (l q : List Char) (h : refQuery l = some q) :
    q.all (fun c => !(c == '#')) = true := by
  unfold refQuery at h
  split at h
  · injection h with h
    rw [← h]
    exact all_takeWhile _ _
  · exact absurd h (by simp)

lemma queryWfOf (o : Option (List Char))
    (ho : ∀ q, o = some q → q.all (fun c => !(c == '#')) = true) :
    QueryOk o := by
  cases o with
  | none => trivial
  | some q => exact ho q rfl

lemma refPath_ne_head {l : List Char} (h : refPath l ≠ []) :
    ∃ c t, l = c :: t ∧ (!(c == '?' || c == '#')) = true ∧ (refPath l).head? = some c := by
  unfold refPath at h ⊢
  cases l with
  | nil => simp at h
  | cons c t =>
      by_cases hc : (!(c == '?' || c == '#')) = true
      · refine ⟨c, t, rfl, hc, ?_⟩
        rw [@List.takeWhile_cons_of_pos Char (fun c => !(c == '?' || c == '#')) c t hc]
        rfl
      · rw [@List.takeWhile_cons_of_neg Char (fun c => !(c == '?' || c == '#')) c t hc] at h
        exact absurd rfl h

lemma lowerL_ne_nil {l : List Char} (h : l ≠ []) : lowerL l ≠ [] := by
  cases l with
  | nil => exact absurd rfl h
  | cons c cs => simp [lowerL]

lemma parseUrlL_wf {l : List Char} {u : UrlModel} (h : parseUrlL l = some u) : UrlWf u := by
  unfold parseUrlL at h
  split at h
  case _ r3 heq =>
    split at h
    case isTrue => exact absurd h (by simp)
    case isFalse hcond1 =>
      split at h
      case isTrue => exact absurd h (by simp)
      case isFalse hcond2 =>
        injection h with h
        subst h
        have hcond1' : ((l.takeWhile (fun c => !(c == ':'))).isEmpty ||
            !(l.takeWhile (fun c => !(c == ':'))).all isAsciiLetter) = false :=
          Bool.eq_false_iff.mpr hcond1
        obtain ⟨hse, hsa0⟩ := Bool.or_eq_false_iff.mp hcond1'
        have hsa : (l.takeWhile (fun c => !(c == ':'))).all isAsciiLetter = true :=
          (Bool.not_eq_false' _) ▸ hsa0
        have hsne : l.takeWhile (fun c => !(c == ':')) ≠ [] := by
          intro hc
          rw [hc] at hse
          exact absurd hse (by simp)
        have hcond2' : ((r3.takeWhile (fun c => !(c == '/' || c == '?' || c == '#'))).isEmpty ||
            (r3.takeWhile (fun c => !(c == '/' || c == '?' || c == '#'))).any
              (fun c => c == ':' || c == '@')) = false :=
          Bool.eq_false_iff.mpr hcond2
        obtain ⟨hae, haa⟩ := Bool.or_eq_false_iff.mp hcond2'
        have hane : r3.takeWhile (fun c => !(c == '/' || c == '?' || c == '#')) ≠ [] := by
          intro hc
          rw [hc] at hae
          exact absurd hae (by simp)
        refine ⟨⟨lowerL_ne_nil hsne, ?_, lowerL_idem _⟩,
          ⟨lowerL_ne_nil hane, ?_, lowerL_idem _⟩, ⟨?_, ?_⟩,
          queryWfOf _ (fun q hq => refQuery_wf _ q hq)⟩
        · rw [List.all_eq_true]
          intro c hc
          obtain ⟨c0, hc0, hcc⟩ := List.mem_map.mp hc
          rw [← hcc]
          exact isAsciiLetter_asciiLower (List.all_eq_true.mp hsa c0 hc0)
        · rw [List.all_eq_true]
          intro c hc
          obtain ⟨c0, hc0, hcc⟩ := List.mem_map.mp hc
          rw [← hcc]
          apply hostNoSpecial_asciiLower
          have hm := List.mem_takeWhile_imp hc0
          have hna : (c0 == ':' || c0 == '@') = false := by
            rcases hb : (c0 == ':' || c0 == '@')
            · rfl
            · exfalso
              have : (r3.takeWhile (fun c => !(c == '/' || c == '?' || c == '#'))).any
                  (fun c => c == ':' || c == '@') = true :=
                List.any_eq_true.mpr ⟨c0, hc0, by rw [hb]⟩
              rw [this] at haa
              exact absurd haa (by simp)
          simp only [Bool.not_eq_true', Bool.or_eq_false_iff] at hm hna
          simp only [hostNoSpecial, Bool.not_eq_true', Bool.or_eq_false_iff]
          exact ⟨⟨⟨⟨hm.1.1, hm.1.2⟩, hm.2⟩, hna.1⟩, hna.2⟩
        · by_cases hemp : (refPath (r3.dropWhile
              (fun c => !(c == '/' || c == '?' || c == '#')))).isEmpty = true
          · rw [if_pos hemp]
            rfl
          · rw [if_neg hemp]
            have hne : refPath (r3.dropWhile (fun c => !(c == '/' || c == '?' || c == '#'))) ≠ [] := by
              intro hc
              rw [hc] at hemp
              exact hemp rfl
            obtain ⟨c, t, hrest, hcp, hhead⟩ := refPath_ne_head hne
            have hnot := List.head?_dropWhile_not
              (fun c => !(c == '/' || c == '?' || c == '#')) r3
            rw [hrest, List.head?_cons] at hnot
            have hc' : c = '/' := path_pred hcp hnot
            rw [hhead, hc']
        · by_cases hemp : (refPath (r3.dropWhile
              (fun c => !(c == '/' || c == '?' || c == '#')))).isEmpty = true
          · rw [if_pos hemp]
            rfl
          · rw [if_neg hemp]
            show ((refPath (r3.dropWhile (fun c => !(c == '/' || c == '?' || c == '#')))).all
              (fun c => !(c == '?' || c == '#'))) = true
            unfold refPath
            exact all_takeWhile _ _
  case _ =>
    exact absurd h (by simp)

/-! ## Query-parameter roundtrip lemmas -/

lemma splitAmp_cons (c : Char) (rest : List Char) :
    splitAmp (c :: rest) =
      if c == '&' then [] :: splitAmp rest
      else match splitAmp rest with
        | s :: ss => (c :: s) :: ss
        | [] => [[c]] := rfl

lemma splitAmp_ne_nil (l : List Char) : splitAmp l ≠ [] := by
  cases l with
  | nil => simp [splitAmp]
  | cons c cs =>
      unfold splitAmp
      by_cases hc : (c == '&') = true
      · rw [if_pos hc]
        simp
      · rw [if_neg hc]
        split
        · simp
        · simp

lemma splitAmp_no_amp {l : List Char} (h : '&' ∉ l) : splitAmp l = [l] := by
  induction l with
  | nil => rfl
  | cons c cs ih =>
      have hc : ¬(c == '&') = true := by
        simp only [beq_iff_eq]
        intro hcc
        exact h (hcc ▸ List.mem_cons_self c cs)
      have hcs : '&' ∉ cs := fun hm => h (List.mem_cons_of_mem c hm)
      unfold splitAmp
      rw [if_neg hc, ih hcs]

lemma splitAmp_app {s t : List Char} (h : '&' ∉ s) :
    splitAmp (s ++ '&' :: t) = s :: splitAmp t := by
  induction s with
  | nil =>
      show splitAmp ('&' :: t) = [] :: splitAmp t
      rw [splitAmp_cons, if_pos (by decide)]
  | cons c cs ih =>
      have hc : ¬(c == '&') = true := by
        simp only [beq_iff_eq]
        intro hcc
        exact h (hcc ▸ List.mem_cons_self c cs)
      have hcs : '&' ∉ cs := fun hm => h (List.mem_cons_of_mem c hm)
      show splitAmp (c :: (cs ++ '&' :: t)) = (c :: cs) :: splitAmp t
      rw [splitAmp_cons, if_neg hc, ih hcs]

lemma splitAmp_mem {l : List Char} :
    ∀ {seg : List Char}, seg ∈ splitAmp l → ∀ c ∈ seg, c ∈ l ∧ c ≠ '&' := by
  induction l with
  | nil =>
      intro seg hseg c hc
      simp only [splitAmp] at hseg
      simp at hseg
      subst hseg
      simp at hc
  | cons a cs ih =>
      intro seg hseg c hc
      unfold splitAmp at hseg
      by_cases ha : (a == '&') = true
      · rw [if_pos ha] at hseg
        rcases List.mem_cons.mp hseg with hs | hs
        · subst hs; simp at hc
        · obtain ⟨hmem, hne⟩ := ih hs c hc
          exact ⟨List.mem_cons_of_mem a hmem, hne⟩
      · rw [if_neg ha] at hseg
        obtain ⟨s, ss, hss⟩ : ∃ s ss, splitAmp cs = s :: ss := by
          cases h' : splitAmp cs with
          | nil => exact absurd h' (splitAmp_ne_nil cs)
          | cons s ss => exact ⟨s, ss, rfl⟩
        rw [hss] at hseg
        rcases List.mem_cons.mp hseg with hs | hs
        · subst hs
          rcases List.mem_cons.mp hc with hcc | hcc
          · subst hcc
            refine ⟨List.mem_cons_self _ _, ?_⟩
            simpa using ha
          · obtain ⟨hmem, hne⟩ := ih (hss ▸ List.mem_cons_self s ss) c hcc
            exact ⟨List.mem_cons_of_mem a hmem, hne⟩
        · obtain ⟨hmem, hne⟩ := ih (hss ▸ List.mem_cons_of_mem s hs) c hc
          exact ⟨List.mem_cons_of_mem a hmem, hne⟩

lemma parsePair_eq {n v : List Char} (hn : '=' ∉ n) : parsePair (n ++ '=' :: v) = (n, v) := by
  have hall : ∀ c ∈ n, (fun c => !(c == '=')) c = true := by
    intro c hc
    simp only [Bool.not_eq_true', beq_eq_false_iff_ne, ne_eq]
    intro hcc
    exact hn (hcc ▸ hc)
  have hstop : ∀ c : Char, ('=' :: v).head? = some c → (fun c => !(c == '=')) c = false := by
    intro c hc
    simp only [List.head?_cons, Option.some.injEq] at hc
    subst hc
    decide
  unfold parsePair
  rw [takeWhile_stop hall hstop, dropWhile_stop hall hstop]
  show (n, if '=' == '=' then v else []) = (n, v)
  rw [if_pos (by decide)]

lemma parsePair_fst_no_eq (seg : List Char) : '=' ∉ (parsePair seg).1 := by
  intro hm
  have := List.mem_takeWhile_imp hm
  simp at this

lemma parsePair_fst_subset (seg : List Char) : ∀ c ∈ (parsePair seg).1, c ∈ seg :=
  fun _ hc => (List.takeWhile_sublist _).subset hc

lemma parsePair_snd_subset (seg : List Char) : ∀ c ∈ (parsePair seg).2, c ∈ seg := by
  intro c hc
  have hsub : (parsePair seg).2.Sublist (seg.dropWhile (fun c => !(c == '='))) := by
    show (match seg.dropWhile (fun c => !(c == '=')) with
          | d :: v => if d == '=' then v else []
          | [] => []).Sublist (seg.dropWhile (fun c => !(c == '=')))
    cases seg.dropWhile (fun c => !(c == '=')) with
    | nil => exact List.Sublist.refl []
    | cons d v =>
        show (if d == '=' then v else []).Sublist (d :: v)
        by_cases hdeq : (d == '=') = true
        · rw [if_pos hdeq]
          exact (List.Sublist.refl v).cons d
        · rw [if_neg hdeq]
          exact List.nil_sublist _
  exact (hsub.trans (List.dropWhile_sublist _)).subset hc

/-- Well-formedness of a `URLSearchParams` pair list. -/
def PairsWf (ps : List (List Char × List Char)) : Prop :=
  ∀ p ∈ ps, ('&' ∉ p.1 ∧ '=' ∉ p.1) ∧ '&' ∉ p.2

lemma parseQuery_wf (q : List Char) : PairsWf (parseQuery (some q)) := by
  intro p hp
  unfold parseQuery at hp
  obtain ⟨seg, hseg, hpp⟩ := List.mem_map.mp hp
  have hsegmem := List.mem_filter.mp hseg
  have hchars := splitAmp_mem hsegmem.1
  subst hpp
  refine ⟨⟨?_, parsePair_fst_no_eq seg⟩, ?_⟩
  · intro hm
    exact (hchars '&' (parsePair_fst_subset seg '&' hm)).2 rfl
  · intro hm
    exact (hchars '&' (parsePair_snd_subset seg '&' hm)).2 rfl

lemma joinAmp_mem : ∀ {parts : List (List Char)} {c : Char}, c ∈ joinAmp parts →
    c = '&' ∨ ∃ part ∈ parts, c ∈ part := by
  intro parts
  induction parts with
  | nil => intro c hc; simp [joinAmp] at hc
  | cons p ps ih =>
      intro c hc
      cases ps with
      | nil =>
          simp only [joinAmp] at hc
          exact Or.inr ⟨p, List.mem_cons_self _ _, hc⟩
      | cons q qs =>
          simp only [joinAmp] at hc
          rcases List.mem_append.mp hc with hm | hm
          · exact Or.inr ⟨p, List.mem_cons_self _ _, hm⟩
          · rcases List.mem_cons.mp hm with hm | hm
            · exact Or.inl hm
            · rcases ih hm with hm | ⟨part, hpart, hcm⟩
              · exact Or.inl hm
              · exact Or.inr ⟨part, List.mem_cons_of_mem _ hpart, hcm⟩

lemma splitAmp_joinAmp : ∀ {segs : List (List Char)}, segs ≠ [] →
    (∀ seg ∈ segs, '&' ∉ seg) → splitAmp (joinAmp segs) = segs := by
  intro segs
  induction segs with
  | nil => intro h _; exact absurd rfl h
  | cons s ss ih =>
      intro _ hfree
      cases ss with
      | nil =>
          show splitAmp (joinAmp [s]) = [s]
          rw [show joinAmp [s] = s from rfl]
          exact splitAmp_no_amp (hfree s (List.mem_cons_self _ _))
      | cons s2 ss2 =>
          show splitAmp (joinAmp (s :: s2 :: ss2)) = s :: s2 :: ss2
          rw [show joinAmp (s :: s2 :: ss2) = s ++ '&' :: joinAmp (s2 :: ss2) from rfl]
          rw [splitAmp_app (hfree s (List.mem_cons_self _ _))]
          rw [ih (by simp) (fun seg hseg => hfree seg (List.mem_cons_of_mem _ hseg))]

lemma parseQuery_serializePairs {ps : List (List Char × List Char)} (hne : ps ≠ [])
    (hwf : PairsWf ps) : parseQuery (some (serializePairs ps)) = ps := by
  unfold parseQuery serializePairs
  have hsegs : splitAmp (joinAmp (ps.map (fun p => p.1 ++ '=' :: p.2))) =
      ps.map (fun p => p.1 ++ '=' :: p.2) := by
    apply splitAmp_joinAmp
    · simp [hne]
    · intro seg hseg
      obtain ⟨p, hp, hpp⟩ := List.mem_map.mp hseg
      subst hpp
      intro hm
      rcases List.mem_append.mp hm with hm | hm
      · exact (hwf p hp).1.1 hm
      · rcases List.mem_cons.mp hm with hm | hm
        · exact absurd hm (by decide)
        · exact (hwf p hp).2 hm
  show ((splitAmp (joinAmp (ps.map (fun p => p.1 ++ '=' :: p.2)))).filter
      (fun seg => !seg.isEmpty)).map parsePair = ps
  rw [hsegs]
  have hfilter : (ps.map (fun p => p.1 ++ '=' :: p.2)).filter (fun seg => !seg.isEmpty) =
      ps.map (fun p => p.1 ++ '=' :: p.2) := by
    rw [List.filter_eq_self]
    intro seg hseg
    obtain ⟨p, _, hpp⟩ := List.mem_map.mp hseg
    subst hpp
    cases hp1 : p.1 <;> simp
  rw [hfilter, List.map_map]
  have : ∀ p ∈ ps, (parsePair ∘ fun p => p.1 ++ '=' :: p.2) p = p := by
    intro p hp
    show parsePair (p.1 ++ '=' :: p.2) = p
    rw [parsePair_eq (hwf p hp).1.2]
  rw [List.map_congr_left this]
  exact List.map_id ps

lemma sortPairs_mem {ps : List (List Char × List Char)} {p : List Char × List Char} :
    p ∈ sortPairs ps ↔ p ∈ ps :=
  (List.perm_insertionSort pairLe ps).mem_iff

lemma sortPairs_sorted (ps : List (List Char × List Char)) :
    List.Sorted pairLe (sortPairs ps) :=
  List.sorted_insertionSort pairLe ps

lemma sortPairs_of_sorted {ps : List (List Char × List Char)}
    (h : List.Sorted pairLe ps) : sortPairs ps = ps :=
  h.insertionSort_eq

lemma sortPairs_ne_nil {ps : List (List Char × List Char)} (h : ps ≠ []) :
    sortPairs ps ≠ [] := by
  intro hc
  have := (List.perm_insertionSort pairLe ps).symm.length_eq
  rw [show sortPairs ps = List.insertionSort pairLe ps from rfl] at hc
  rw [hc] at this
  cases ps with
  | nil => exact h rfl
  | cons a l => simp at this

/-! ## Idempotence of `normalizeUrl` -/

lemma parseQuery_char_subset {q : List Char} {p : List Char × List Char}
    (hp : p ∈ parseQuery (some q)) : (∀ c ∈ p.1, c ∈ q) ∧ ∀ c ∈ p.2, c ∈ q := by
  unfold parseQuery at hp
  obtain ⟨seg, hseg, hpp⟩ := List.mem_map.mp hp
  have hsegmem := (List.mem_filter.mp hseg).1
  subst hpp
  exact ⟨fun c hc => (splitAmp_mem hsegmem c (parsePair_fst_subset seg c hc)).1,
         fun c hc => (splitAmp_mem hsegmem c (parsePair_snd_subset seg c hc)).1⟩

lemma serializePairs_no_hash {ps : List (List Char × List Char)}
    (h : ∀ p ∈ ps, (∀ c ∈ p.1, c ≠ '#') ∧ ∀ c ∈ p.2, c ≠ '#') :
    (serializePairs ps).all (fun c => !(c == '#')) = true := by
  rw [List.all_eq_true]
  intro c hc
  simp only [Bool.not_eq_true', beq_eq_false_iff_ne, ne_eq]
  intro hcc
  subst hcc
  rcases joinAmp_mem hc with hm | ⟨part, hpart, hcm⟩
  · exact absurd hm (by decide)
  · obtain ⟨p, hp, hpp⟩ := List.mem_map.mp hpart
    subst hpp
    rcases List.mem_append.mp hcm with hm | hm
    · exact (h p hp).1 '#' hm rfl
    · rcases List.mem_cons.mp hm with hm | hm
      · exact absurd hm (by decide)
      · exact (h p hp).2 '#' hm rfl

lemma sortPairs_pairsWf {ps : List (List Char × List Char)} (h : PairsWf ps) :
    PairsWf (sortPairs ps) :=
  fun p hp => h p (sortPairs_mem.mp hp)

lemma stripSlash_head {path : List Char} (h : path.head? = some '/') :
    (stripSlash path).head? = some '/' := by
  unfold stripSlash
  split
  · rename_i hcond
    cases path with
    | nil => exact absurd h (by decide)
    | cons a as =>
        simp only [List.head?_cons, Option.some.injEq] at h
        subst h
        cases as with
        | nil => exact absurd hcond (by simp)
        | cons b bs => rfl
  · exact h

lemma stripSlash_all {path : List Char}
    (h : path.all (fun c => !(c == '?' || c == '#')) = true) :
    (stripSlash path).all (fun c => !(c == '?' || c == '#')) = true := by
  unfold stripSlash
  split
  · rw [List.all_eq_true] at h ⊢
    exact fun c hc => h c ((List.dropLast_sublist path).subset hc)
  · exact h

lemma normQuery_queryOk {q : Option (List Char)} (h : QueryOk q) :
    QueryOk (normQuery q) := by
  unfold normQuery
  split
  · trivial
  · show (serializePairs (sortPairs (parseQuery q))).all (fun c => !(c == '#')) = true
    apply serializePairs_no_hash
    intro p hp
    have hp' := sortPairs_mem.mp hp
    cases q with
    | none => exact absurd hp' (by simp [parseQuery])
    | some q0 =>
        have hsub := parseQuery_char_subset hp'
        have hq0 : ∀ c ∈ q0, c ≠ '#' := by
          intro c hc hcc
          have := List.all_eq_true.mp h c hc
          subst hcc
          exact absurd this (by decide)
        exact ⟨fun c hc => hq0 c (hsub.1 c hc), fun c hc => hq0 c (hsub.2 c hc)⟩

lemma normModel_wf {p : UrlModel} (h : UrlWf p) : UrlWf (normModel p) := by
  obtain ⟨hs, hh, ⟨hp1, hp2⟩, hq⟩ := h
  exact ⟨hs, hh, ⟨stripSlash_head hp1, stripSlash_all hp2⟩, normQuery_queryOk hq⟩

lemma normQuery_idem (q : Option (List Char)) : normQuery (normQuery q) = normQuery q := by
  by_cases hq : parseQuery q = []
  · have h1 : normQuery q = none := by
      unfold normQuery
      rw [if_pos (by rw [hq]; rfl)]
    rw [h1]
    unfold normQuery
    rw [if_pos (show (parseQuery none).isEmpty = true from rfl)]
  · have hne : (parseQuery q).isEmpty = false := by
      cases hpq : parseQuery q with
      | nil => exact absurd hpq hq
      | cons a l => rfl
    have h1 : normQuery q = some (serializePairs (sortPairs (parseQuery q))) := by
      unfold normQuery
      rw [hne]
      rfl
    have hwfp : PairsWf (parseQuery q) := by
      cases q with
      | none => exact absurd rfl hq
      | some q0 => exact parseQuery_wf q0
    have hsne : sortPairs (parseQuery q) ≠ [] := sortPairs_ne_nil hq
    have hround : parseQuery (some (serializePairs (sortPairs (parseQuery q)))) =
        sortPairs (parseQuery q) :=
      parseQuery_serializePairs hsne (sortPairs_pairsWf hwfp)
    rw [h1]
    unfold normQuery
    rw [hround, if_neg (by
      cases hsp : sortPairs (parseQuery q) with
      | nil => exact absurd hsp hsne
      | cons a l => simp)]
    rw [sortPairs_of_sorted (sortPairs_sorted (parseQuery q))]

/-- The amendment's precondition: after one trailing-slash strip the path does
not still end in a slash (no `//` tail on a non-root path). -/
def noDoubleTrailingSlash (s : String) : Bool :=
  match parseUrlL s.data with
  | none => true
  | some p =>
      decide (stripSlash p.path = ['/']) || !(decide ((stripSlash p.path).getLast? = some '/'))

lemma normModel_idem {p : UrlModel}
    (hcond : ¬(stripSlash p.path ≠ ['/'] ∧ (stripSlash p.path).getLast? = some '/')) :
    normModel (normModel p) = normModel p := by
  have hpath : stripSlash (stripSlash p.path) = stripSlash p.path := by
    show (if stripSlash p.path ≠ ['/'] ∧ (stripSlash p.path).getLast? = some '/'
          then (stripSlash p.path).dropLast else stripSlash p.path) = stripSlash p.path
    rw [if_neg hcond]
  show (⟨p.scheme, p.host, stripSlash (stripSlash p.path),
        normQuery (normQuery p.query), none⟩ : UrlModel) =
      ⟨p.scheme, p.host, stripSlash p.path, normQuery p.query, none⟩
  rw [hpath, normQuery_idem]

/-- C7 counterexample: a non-root path ending in a double slash is shortened
again by a second normalization, so `normalizeUrl` is not idempotent. -/
theorem c7_normalizeUrl_counterexample :
    normalizeUrl (normalizeUrl "http://example.com/a//") ≠
      normalizeUrl "http://example.com/a//" := by
  decide

/-- C7 (amended): `normalizeUrl` is idempotent on every string that is
unparseable or whose once-stripped path does not still end in a slash. -/
theorem c7_normalizeUrl_amended (s : String) (h : noDoubleTrailingSlash s = true) :
    normalizeUrl (normalizeUrl s) = normalizeUrl s := by
  cases hp : parseUrlL s.data with
  | none =>
      have h1 : normalizeUrl s = s := by
        unfold normalizeUrl
        rw [hp]
      rw [h1]
      exact h1
  | some p =>
      have hwf := parseUrlL_wf hp
      have h1 : normalizeUrl s = ⟨serializeUrlL (normModel p)⟩ := by
        unfold normalizeUrl
        rw [hp]
      have hp2 : parseUrlL (String.mk (serializeUrlL (normModel p))).data =
          some (normModel p) := parse_serializeUrlL _ (normModel_wf hwf)
      have h2 : normalizeUrl ⟨serializeUrlL (normModel p)⟩ =
          ⟨serializeUrlL (normModel (normModel p))⟩ := by
        unfold normalizeUrl
        rw [hp2]
      have hcond : ¬(stripSlash p.path ≠ ['/'] ∧
          (stripSlash p.path).getLast? = some '/') := by
        unfold noDoubleTrailingSlash at h
        rw [hp] at h
        rcases (Bool.or_eq_true _ _).mp h with h' | h'
        · intro hc
          exact hc.1 (of_decide_eq_true h')
        · intro hc
          rw [Bool.not_eq_true', decide_eq_false_iff_not] at h'
          exact h' hc.2
      rw [h1, h2, normModel_idem hcond]

/-- Closed witness for C7 (amended) at a parseable URL with query and
fragment. -/
theorem c7_witness :
    noDoubleTrailingSlash "http://example.com/a/?b=2&a=1#frag" = true ∧
      normalizeUrl (normalizeUrl "http://example.com/a/?b=2&a=1#frag") =
        normalizeUrl "http://example.com/a/?b=2&a=1#frag" :=
  ⟨by decide, c7_normalizeUrl_amended _ (by decide)⟩

/-- C10: `normalizeUrl` returns unparseable input unchanged (and, being a
total function of the embedding, never fails). -/
theorem c10_normalizeUrl_total (s : String) (h : parseUrlL s.data = none) :
    normalizeUrl s = s := by
  unfold normalizeUrl
  rw [h]

/-- Closed witness for C10 at a malformed URL string. -/
theorem c10_witness :
    parseUrlL "not a url".data = none ∧ normalizeUrl "not a url" = "not a url" :=
  ⟨by decide, c10_normalizeUrl_total _ (by decide)⟩

/-! ## Validator (`src/validator.ts`) -/

/-- The issue kinds pushed by `validateUrl`. -/
inductive IssueType where
  | error
  | not_found
  | server_error
  | redirect
  | soft_404
  | title_mismatch
deriving Repr, DecidableEq

/-- One entry of a result's `issues` list. -/
structure ValidationIssue where
  type : IssueType
  message : String
deriving Repr, DecidableEq

/-- The `status` field of a `ValidationResult`. -/
inductive VStatus where
  | ok
  | warning
  | error
deriving Repr, DecidableEq

/-- `ValidationResult` from `types/index.ts` (the fields `validateUrl`
constructs). -/
structure ValidationResult where
  sourcePath : String
  sourceTitle : Option String
  destinationUrl : String
  destinationStatusCode : Option Int
  destinationTitle : Option String
  status : VStatus
  issues : List ValidationIssue
  responseTimeMs : Nat
deriving Repr, DecidableEq

/-- `Math.round` on a rational. -/
def jsRound (q : ℚ) : Int := ⌊q + 1/2⌋

/-- `status = status === 'ok' ? 'warning' : status`. -/
def escalateWarn : VStatus → VStatus
  | .ok => .warning
  | s => s

/-- The 404 check of `validateUrl`. -/
def step404 (st : Int) (acc : List ValidationIssue × VStatus) :
    List ValidationIssue × VStatus :=
  if st = 404 then (acc.1 ++ [⟨.not_found, "404 Not Found"⟩], .error) else acc

/-- The server-error check of `validateUrl`. -/
def stepServer (st : Int) (acc : List ValidationIssue × VStatus) :
    List ValidationIssue × VStatus :=
  if isServerErrorStatus st then
    (acc.1 ++ [⟨.server_error, "Server error: " ++ toString st⟩], .error)
  else acc

/-- The redirect check of `validateUrl`: on a redirect both URLs are parsed
(`none` models the `new URL` throw) and a path change emits a warning. -/
def stepRedirect (result : FetchResult) (destUrl : String)
    (acc : List ValidationIssue × VStatus) :
    Option (List ValidationIssue × VStatus) :=
  if result.wasRedirected then
    match parseUrlL destUrl.data, parseUrlL result.finalUrl.data with
    | some po, some pf =>
        if po.path ≠ pf.path then
          some (acc.1 ++ [⟨.redirect, "Redirected to: " ++ ⟨pf.path⟩⟩], escalateWarn acc.2)
        else some acc
    | _, _ => none
  else some acc

/-- The soft-404 check of `validateUrl`. -/
def stepSoft (st : Int) (bodyText : String) (destTitle : Option String)
    (acc : List ValidationIssue × VStatus) : List ValidationIssue × VStatus :=
  if isSuccessStatus st && (checkSoft404 bodyText destTitle st).isSoft404 then
    (acc.1 ++ [⟨.soft_404, "Soft 404 detected (" ++
        toString (jsRound ((checkSoft404 bodyText destTitle st).confidence * 100)) ++
        "% confidence)"⟩],
     .error)
  else acc

/-- The title-mismatch check of `validateUrl` (JavaScript truthiness on both
titles, skipped when the status is already an error). -/
def stepTitle (sourceTitle destTitle : Option String)
    (acc : List ValidationIssue × VStatus) : List ValidationIssue × VStatus :=
  if !strFalsy sourceTitle && !strFalsy destTitle && !(decide (acc.2 = VStatus.error)) &&
      !titlesMatch sourceTitle destTitle then
    (acc.1 ++ [⟨.title_mismatch, "Title mismatch: \"" ++ sourceTitle.getD "" ++
        "\" vs \"" ++ destTitle.getD "" ++ "\""⟩],
     escalateWarn acc.2)
  else acc

/-- `validateUrl` from `validator.ts`.  The network is the `oracle` of the
embedded `fetchUrl`; `titleOf` and `bodyTextOf` stand for the cheerio-backed
`extractTitle` and `extractBodyText`; `elapsedMs` is the observed
`Date.now()` difference.  `none` models the rejected promise when `new URL`
throws in the redirect check. -/
def validateUrl (path : String) (sourceTitle : Option String) (destinationUrl : String)
    (timeout : Nat) (oracle : Nat → Attempt) (titleOf : String → Option String)
    (bodyTextOf : String → String) (elapsedMs : Nat) : Option ValidationResult :=
  let destUrl := joinUrl destinationUrl path
  let result := (fetchUrl destUrl timeout 1 oracle).result
  match result.error with
  | some m =>
      some { sourcePath := path, sourceTitle := sourceTitle, destinationUrl := destUrl,
             destinationStatusCode := none, destinationTitle := none,
             status := .error, issues := [⟨.error, m⟩], responseTimeMs := elapsedMs }
  | none =>
      match stepRedirect result destUrl
          (stepServer result.statusCode (step404 result.statusCode ([], .ok))) with
      | none => none
      | some acc =>
          let destTitle := titleOf result.body
          let acc2 := stepTitle sourceTitle destTitle
            (stepSoft result.statusCode (bodyTextOf result.body) destTitle acc)
          some { sourcePath := path, sourceTitle := sourceTitle, destinationUrl := destUrl,
                 destinationStatusCode := some result.statusCode,
                 destinationTitle := destTitle,
                 status := acc2.2, issues := acc2.1, responseTimeMs := elapsedMs }

/-- `RedirectHandling` values of the validator configuration. -/
inductive RedirectMode where
  | ok
  | warning
deriving Repr, DecidableEq

/-- `ValidatorConfig` from `types/index.ts`. -/
structure ValidatorConfig where
  inputPath : String
  destinationUrl : String
  concurrency : Nat
  timeout : Nat
  outputPath : String
  verbose : Bool
  redirectHandling : RedirectMode
deriving Repr, DecidableEq

/-- The per-URL validation performed by `validate`, which passes only
`config.destinationUrl` and `config.timeout` to `validateUrl`. -/
def validateUrlCfg (cfg : ValidatorConfig) (path : String) (sourceTitle : Option String)
    (oracle : Nat → Attempt) (titleOf : String → Option String)
    (bodyTextOf : String → String) (elapsedMs : Nat) : Option ValidationResult :=
  validateUrl path sourceTitle cfg.destinationUrl cfg.timeout oracle titleOf bodyTextOf
    elapsedMs

/-- The C8 invariant on an issue/status accumulator. -/
def AccOk (acc : List ValidationIssue × VStatus) : Prop :=
  acc.2 = VStatus.ok ↔ acc.1 = []

lemma accOk_append (l : List ValidationIssue) (x : ValidationIssue) {s : VStatus}
    (hs : s ≠ VStatus.ok) : AccOk (l ++ [x], s) := by
  constructor
  · intro h
    exact absurd h hs
  · intro h
    exact absurd h (by simp)

lemma escalateWarn_ne_ok (s : VStatus) : escalateWarn s ≠ VStatus.ok := by
  cases s <;> decide

lemma step404_accOk (st : Int) {acc : List ValidationIssue × VStatus} (h : AccOk acc) :
    AccOk (step404 st acc) := by
  unfold step404
  split
  · exact accOk_append _ _ (by decide)
  · exact h

lemma stepServer_accOk (st : Int) {acc : List ValidationIssue × VStatus} (h : AccOk acc) :
    AccOk (stepServer st acc) := by
  unfold stepServer
  split
  · exact accOk_append _ _ (by decide)
  · exact h

lemma stepRedirect_accOk {result : FetchResult} {destUrl : String}
    {acc acc' : List ValidationIssue × VStatus} (h : AccOk acc)
    (he : stepRedirect result destUrl acc = some acc') : AccOk acc' := by
  unfold stepRedirect at he
  split at he
  · split at he
    · rename_i po pf
      split at he
      · rw [Option.some.injEq] at he
        subst he
        exact accOk_append _ _ (escalateWarn_ne_ok _)
      · rw [Option.some.injEq] at he
        subst he
        exact h
    · exact Option.noConfusion he
  · rw [Option.some.injEq] at he
    subst he
    exact h

lemma stepSoft_accOk (st : Int) (bodyText : String) (destTitle : Option String)
    {acc : List ValidationIssue × VStatus} (h : AccOk acc) :
    AccOk (stepSoft st bodyText destTitle acc) := by
  unfold stepSoft
  split
  · exact accOk_append _ _ (by decide)
  · exact h

lemma stepTitle_accOk (sourceTitle destTitle : Option String)
    {acc : List ValidationIssue × VStatus} (h : AccOk acc) :
    AccOk (stepTitle sourceTitle destTitle acc) := by
  unfold stepTitle
  split
  · exact accOk_append _ _ (escalateWarn_ne_ok _)
  · exact h

/-- C8: a validation result has status `ok` exactly when its issues list is
empty. -/
theorem c8_status_iff_issues (path : String) (sourceTitle : Option String)
    (destinationUrl : String) (timeout : Nat) (oracle : Nat → Attempt)
    (titleOf : String → Option String) (bodyTextOf : String → String) (elapsedMs : Nat)
    (r : ValidationResult)
    (h : validateUrl path sourceTitle destinationUrl timeout oracle titleOf bodyTextOf
      elapsedMs = some r) :
    r.status = VStatus.ok ↔ r.issues = [] := by
  unfold validateUrl at h
  simp only [] at h
  split at h
  · rw [Option.some.injEq] at h
    subst h
    simp
  · split at h
    · exact Option.noConfusion h
    · rename_i acc heq
      rw [Option.some.injEq] at h
      subst h
      have h0 : AccOk (([] : List ValidationIssue), VStatus.ok) := ⟨fun _ => rfl, fun _ => rfl⟩
      exact stepTitle_accOk _ _ (stepSoft_accOk _ _ _
        (stepRedirect_accOk (stepServer_accOk _ (step404_accOk _ h0)) heq))

lemma stepSoft_mem {st : Int} {bodyText : String} {destTitle : Option String}
    {acc : List ValidationIssue × VStatus} {x : ValidationIssue} (hx : x ∈ acc.1) :
    x ∈ (stepSoft st bodyText destTitle acc).1 := by
  unfold stepSoft
  split
  · exact List.mem_append_left _ hx
  · exact hx

lemma stepTitle_mem {sourceTitle destTitle : Option String}
    {acc : List ValidationIssue × VStatus} {x : ValidationIssue} (hx : x ∈ acc.1) :
    x ∈ (stepTitle sourceTitle destTitle acc).1 := by
  unfold stepTitle
  split
  · exact List.mem_append_left _ hx
  · exact hx

lemma stepSoft_ne_ok {st : Int} {bodyText : String} {destTitle : Option String}
    {acc : List ValidationIssue × VStatus} (hs : acc.2 ≠ VStatus.ok) :
    (stepSoft st bodyText destTitle acc).2 ≠ VStatus.ok := by
  unfold stepSoft
  split
  · show VStatus.error ≠ VStatus.ok
    decide
  · exact hs

lemma stepTitle_ne_ok {sourceTitle destTitle : Option String}
    {acc : List ValidationIssue × VStatus} (hs : acc.2 ≠ VStatus.ok) :
    (stepTitle sourceTitle destTitle acc).2 ≠ VStatus.ok := by
  unfold stepTitle
  split
  · exact escalateWarn_ne_ok _
  · exact hs

/-- C6: the redirect-handling flag never influences the verdict: two
configurations differing only in that flag validate identically, and a
path-changing redirect always emits the redirect issue and leaves the
status non-`ok`. -/
theorem c6_redirect_flag_irrelevant :
    (∀ (cfg : ValidatorConfig) (rh : RedirectMode) (path : String)
        (sourceTitle : Option String) (oracle : Nat → Attempt)
        (titleOf : String → Option String) (bodyTextOf : String → String) (elapsedMs : Nat),
        validateUrlCfg { cfg with redirectHandling := rh } path sourceTitle oracle titleOf
            bodyTextOf elapsedMs =
          validateUrlCfg cfg path sourceTitle oracle titleOf bodyTextOf elapsedMs) ∧
    (∀ (cfg : ValidatorConfig) (path : String) (sourceTitle : Option String)
        (oracle : Nat → Attempt) (titleOf : String → Option String)
        (bodyTextOf : String → String) (elapsedMs : Nat) (r : ValidationResult)
        (po pf : UrlModel),
        validateUrlCfg cfg path sourceTitle oracle titleOf bodyTextOf elapsedMs = some r →
        (fetchUrl (joinUrl cfg.destinationUrl path) cfg.timeout 1 oracle).result.error =
          none →
        (fetchUrl (joinUrl cfg.destinationUrl path) cfg.timeout 1 oracle).result.wasRedirected
          = true →
        parseUrlL (joinUrl cfg.destinationUrl path).data = some po →
        parseUrlL
          ((fetchUrl (joinUrl cfg.destinationUrl path) cfg.timeout 1 oracle).result.finalUrl).data
          = some pf →
        po.path ≠ pf.path →
        (∃ m, (⟨IssueType.redirect, m⟩ : ValidationIssue) ∈ r.issues) ∧
          r.status ≠ VStatus.ok) := by
  constructor
  · intro cfg rh path sourceTitle oracle titleOf bodyTextOf elapsedMs
    rfl
  · intro cfg path sourceTitle oracle titleOf bodyTextOf elapsedMs r po pf h herr hred hpo
      hpf hne
    unfold validateUrlCfg validateUrl at h
    simp only [] at h
    rw [herr] at h
    have hsr : stepRedirect (fetchUrl (joinUrl cfg.destinationUrl path) cfg.timeout 1
          oracle).result (joinUrl cfg.destinationUrl path)
          (stepServer (fetchUrl (joinUrl cfg.destinationUrl path) cfg.timeout 1
              oracle).result.statusCode
            (step404 (fetchUrl (joinUrl cfg.destinationUrl path) cfg.timeout 1
                oracle).result.statusCode ([], .ok))) =
        some ((stepServer (fetchUrl (joinUrl cfg.destinationUrl path) cfg.timeout 1
              oracle).result.statusCode
            (step404 (fetchUrl (joinUrl cfg.destinationUrl path) cfg.timeout 1
                oracle).result.statusCode ([], .ok))).1 ++
          [⟨IssueType.redirect, "Redirected to: " ++ ⟨pf.path⟩⟩],
          escalateWarn (stepServer (fetchUrl (joinUrl cfg.destinationUrl path) cfg.timeout 1
              oracle).result.statusCode
            (step404 (fetchUrl (joinUrl cfg.destinationUrl path) cfg.timeout 1
                oracle).result.statusCode ([], .ok))).2) := by
      unfold stepRedirect
      rw [if_pos hred, hpo, hpf]
      dsimp only
      rw [if_pos hne]
    rw [hsr] at h
    rw [Option.some.injEq] at h
    subst h
    constructor
    · refine ⟨"Redirected to: " ++ ⟨pf.path⟩, ?_⟩
      exact stepTitle_mem (stepSoft_mem
        (List.mem_append_right _ (List.mem_singleton.mpr rfl)))
    · exact stepTitle_ne_ok (stepSoft_ne_ok (escalateWarn_ne_ok _))

/-- The concrete validation result of the C8 witness run: a 404 destination
with one `not_found` issue. -/
def c8wResult : ValidationResult :=
  { sourcePath := "/p", sourceTitle := none,
    destinationUrl := joinUrl "http://d.example" "/p",
    destinationStatusCode := some 404, destinationTitle := none,
    status := .error, issues := [⟨.not_found, "404 Not Found"⟩], responseTimeMs := 7 }

/-- Closed witness for C8 on a concrete 404 validation. -/
theorem c8_witness : c8wResult.status = VStatus.ok ↔ c8wResult.issues = [] :=
  c8_status_iff_issues "/p" none "http://d.example" 5
    (fun _ => Attempt.success 404 "" "" 0) (fun _ => none) (fun _ => "") 7 c8wResult
    (by
      unfold validateUrl fetchUrl
      simp only []
      rw [fetchLoop_step_success (joinUrl "http://d.example" "/p") 5 1
        (fun _ => Attempt.success 404 "" "" 0) 0 none 404 "" "" 0 (by decide) rfl]
      rfl)

/-- The configuration of the C6 witness run. -/
def c6wCfg : ValidatorConfig :=
  { inputPath := "in.json", destinationUrl := "http://d.example", concurrency := 5,
    timeout := 5, outputPath := "out.json", verbose := false,
    redirectHandling := .warning }

/-- The concrete validation result of the C6 witness run: a 404 destination
reached through a path-changing redirect. -/
def c6wResult : ValidationResult :=
  { sourcePath := "/p", sourceTitle := none,
    destinationUrl := joinUrl "http://d.example" "/p",
    destinationStatusCode := some 404, destinationTitle := none,
    status := .error,
    issues := [⟨.not_found, "404 Not Found"⟩, ⟨.redirect, "Redirected to: /other"⟩],
    responseTimeMs := 7 }

/-- Closed witness for C6 on a concrete path-changing redirect. -/
theorem c6_witness :
    (∃ m, (⟨IssueType.redirect, m⟩ : ValidationIssue) ∈ c6wResult.issues) ∧
      c6wResult.status ≠ VStatus.ok :=
  c6_redirect_flag_irrelevant.2 c6wCfg "/p" none
    (fun _ => Attempt.success 404 "" "http://d.example/other" 0)
    (fun _ => none) (fun _ => "") 7 c6wResult
    ⟨"http".data, "d.example".data, "/p".data, none, none⟩
    ⟨"http".data, "d.example".data, "/other".data, none, none⟩
    (by
      unfold validateUrlCfg validateUrl fetchUrl
      simp only []
      rw [fetchLoop_step_success (joinUrl c6wCfg.destinationUrl "/p") c6wCfg.timeout 1
        (fun _ => Attempt.success 404 "" "http://d.example/other" 0) 0 none
        404 "" "http://d.example/other" 0 (by decide) rfl]
      rfl)
    (by
      unfold fetchUrl
      rw [fetchLoop_step_success (joinUrl c6wCfg.destinationUrl "/p") c6wCfg.timeout 1
        (fun _ => Attempt.success 404 "" "http://d.example/other" 0) 0 none
        404 "" "http://d.example/other" 0 (by decide) rfl])
    (by
      unfold fetchUrl
      rw [fetchLoop_step_success (joinUrl c6wCfg.destinationUrl "/p") c6wCfg.timeout 1
        (fun _ => Attempt.success 404 "" "http://d.example/other" 0) 0 none
        404 "" "http://d.example/other" 0 (by decide) rfl]
      rfl)
    rfl
    (by
      unfold fetchUrl
      rw [fetchLoop_step_success (joinUrl c6wCfg.destinationUrl "/p") c6wCfg.timeout 1
        (fun _ => Attempt.success 404 "" "http://d.example/other" 0) 0 none
        404 "" "http://d.example/other" 0 (by decide) rfl]
      rfl)
    (by decide)

/-! ## Crawler (`src/crawler.ts`) -/

/-- A BFS queue entry of `crawl`. -/
structure QItem where
  url : String
  depth : Nat
  discoveredFrom : Option String
deriving Repr, DecidableEq

/-- `CrawledUrl` from `types/index.ts`. -/
structure CrawlRecord where
  url : String
  path : String
  title : Option String
  statusCode : Int
  depth : Nat
  discoveredFrom : Option String
deriving Repr, DecidableEq

/-- What the fetch-and-parse of one URL yields, as an oracle value: a fetch
with a truthy `error`, or a parsed page with its final URL, title, status
and extracted links. -/
inductive CrawlFetch where
  | failed (statusCode : Int)
  | page (finalUrl : String) (title : Option String) (statusCode : Int)
      (links : List String)

/-- The crawler configuration fields read by the modelled crawl loop;
`exclude` is the compiled `excludePatterns` regex test. -/
structure CrawlerConfig where
  sourceUrl : String
  maxDepth : Nat
  concurrency : Nat
  exclude : String → Bool

/-- `domain.replace(/^www\./, '')` from `crawlUrl`. -/
def stripWww (l : List Char) : List Char :=
  if l.take 4 = "www.".data then l.drop 4 else l

/-- `crawlUrl` from `crawler.ts`: on a fetch error, a record for the queued
URL with no title and no links; otherwise a record for the final URL and the
parsed links filtered to the source domain (www-insensitively). -/
def crawlUrl (cfg : CrawlerConfig) (net : String → CrawlFetch) (item : QItem) :
    CrawlRecord × List String :=
  match net item.url with
  | .failed st =>
      (⟨item.url, getUrlPath item.url, none, st, item.depth, item.discoveredFrom⟩, [])
  | .page fu title st links =>
      (⟨fu, getUrlPath fu, title, st, item.depth, item.discoveredFrom⟩,
       links.filter (fun link =>
         decide (stripWww (getDomain link).data = stripWww (getDomain cfg.sourceUrl).data)))

/-- The `batch.filter` of the crawl loop: drop already-visited, too-deep and
excluded items, adding each kept item's normalized URL to the visited set
before its fetch starts. -/
def filterBatch (md : Nat) (ex : String → Bool) :
    List QItem → List String → List QItem × List String
  | [], visited => ([], visited)
  | item :: rest, visited =>
      if normalizeUrl item.url ∈ visited then filterBatch md ex rest visited
      else if md < item.depth then filterBatch md ex rest visited
      else if ex (normalizeUrl item.url) then filterBatch md ex rest visited
      else
        (item :: (filterBatch md ex rest (visited ++ [normalizeUrl item.url])).1,
         (filterBatch md ex rest (visited ++ [normalizeUrl item.url])).2)

/-- The queue entries pushed for the links of one crawled page: normalized
links not yet visited, at the parent's depth plus one. -/
def childItems (rec : CrawlRecord) (visited : List String) (links : List String) :
    List QItem :=
  (links.filter (fun l => !(decide (normalizeUrl l ∈ visited)))).map
    (fun l => ⟨normalizeUrl l, rec.depth + 1, some rec.url⟩)

/-- The result-processing loop of `crawl`: append each crawled record and
queue its unvisited links. -/
def processResults :
    List (CrawlRecord × List String) → List String → List CrawlRecord × List QItem
  | [], _ => ([], [])
  | rl :: rest, visited =>
      (rl.1 :: (processResults rest visited).1,
       childItems rl.1 visited rl.2 ++ (processResults rest visited).2)

/-- The mutable state of the crawl loop. -/
structure CrawlState where
  queue : List QItem
  visited : List String
  records : List CrawlRecord

/-- One iteration of the `while (queue.length > 0)` loop: splice a batch of
at most `concurrency * 2` items, filter it against the visited set, crawl
the kept items and enqueue their unvisited links. -/
def crawlRound (cfg : CrawlerConfig) (net : String → CrawlFetch) (s : CrawlState) :
    CrawlState :=
  let batchSize := min s.queue.length (cfg.concurrency * 2)
  let batch := s.queue.take batchSize
  let rest := s.queue.drop batchSize
  let fb := filterBatch cfg.maxDepth cfg.exclude batch s.visited
  let results := fb.1.map (crawlUrl cfg net)
  let pr := processResults results fb.2
  ⟨rest ++ pr.2, fb.2, s.records ++ pr.1⟩

/-- The crawl loop, indexed by fuel (the source loop runs until the queue
empties). -/
def crawlLoop (cfg : CrawlerConfig) (net : String → CrawlFetch) :
    Nat → CrawlState → CrawlState
  | 0, s => s
  | fuel + 1, s =>
      if s.queue = [] then s else crawlLoop cfg net fuel (crawlRound cfg net s)

/-- A crawl run seeded with the normalized source URL at depth 0. -/
def crawlRun (cfg : CrawlerConfig) (net : String → CrawlFetch) (fuel : Nat) :
    CrawlState :=
  crawlLoop cfg net fuel ⟨[⟨normalizeUrl cfg.sourceUrl, 0, none⟩], [], []⟩

/-- Depth/parent consistency of one entry against the records list. -/
def ParentLink (records : List CrawlRecord) (depth : Nat) (dfrom : Option String) :
    Prop :=
  (depth = 0 ∧ dfrom = none) ∨
  ∃ p ∈ records, dfrom = some p.url ∧ depth = p.depth + 1

/-- The loop invariant of the crawl. -/
def StateInv (s : CrawlState) : Prop :=
  s.visited.Nodup ∧
  (∀ q ∈ s.queue, ParentLink s.records q.depth q.discoveredFrom) ∧
  (∀ r ∈ s.records, ParentLink s.records r.depth r.discoveredFrom)

lemma parentLink_mono {records ext : List CrawlRecord} {d : Nat} {f : Option String}
    (h : ParentLink records d f) : ParentLink (records ++ ext) d f := by
  rcases h with h | ⟨p, hp, hf, hd⟩
  · exact Or.inl h
  · exact Or.inr ⟨p, List.mem_append_left _ hp, hf, hd⟩

lemma filterBatch_nodup (md : Nat) (ex : String → Bool) :
    ∀ (batch : List QItem) (visited : List String), visited.Nodup →
      (filterBatch md ex batch visited).2.Nodup := by
  intro batch
  induction batch with
  | nil => intro visited h; exact h
  | cons item rest ih =>
      intro visited h
      unfold filterBatch
      split
      · exact ih visited h
      · split
        · exact ih visited h
        · split
          · exact ih visited h
          · rename_i hmem _ _
            apply ih
            rw [List.nodup_append]
            exact ⟨h, List.nodup_singleton _, by
              intro a ha hb
              rw [List.mem_singleton] at hb
              subst hb
              exact hmem ha⟩

lemma filterBatch_subset (md : Nat) (ex : String → Bool) :
    ∀ (batch : List QItem) (visited : List String),
      ∀ item ∈ (filterBatch md ex batch visited).1, item ∈ batch := by
  intro batch
  induction batch with
  | nil => intro visited item h; exact absurd h (by simp [filterBatch])
  | cons it rest ih =>
      intro visited item h
      unfold filterBatch at h
      split at h
      · exact List.mem_cons_of_mem _ (ih visited item h)
      · split at h
        · exact List.mem_cons_of_mem _ (ih visited item h)
        · split at h
          · exact List.mem_cons_of_mem _ (ih visited item h)
          · rcases List.mem_cons.mp h with h' | h'
            · exact h' ▸ List.mem_cons_self _ _
            · exact List.mem_cons_of_mem _ (ih _ item h')

lemma crawlUrl_depth_from (cfg : CrawlerConfig) (net : String → CrawlFetch)
    (item : QItem) :
    (crawlUrl cfg net item).1.depth = item.depth ∧
    (crawlUrl cfg net item).1.discoveredFrom = item.discoveredFrom := by
  unfold crawlUrl
  cases net item.url with
  | failed st => exact ⟨rfl, rfl⟩
  | page fu title st links => exact ⟨rfl, rfl⟩

lemma processResults_fst (visited : List String) :
    ∀ results : List (CrawlRecord × List String),
      (processResults results visited).1 = results.map Prod.fst := by
  intro results
  induction results with
  | nil => rfl
  | cons rl rest ih =>
      unfold processResults
      rw [ih]
      rfl

lemma processResults_snd (visited : List String) :
    ∀ results : List (CrawlRecord × List String),
      ∀ q ∈ (processResults results visited).2,
        ∃ rec ∈ results.map Prod.fst, q.discoveredFrom = some rec.url ∧
          q.depth = rec.depth + 1 := by
  intro results
  induction results with
  | nil => intro q h; exact absurd h (by simp [processResults])
  | cons rl rest ih =>
      intro q h
      unfold processResults at h
      rcases List.mem_append.mp h with h' | h'
      · obtain ⟨l, _, hq⟩ := List.mem_map.mp h'
        subst hq
        exact ⟨rl.1, List.mem_map.mpr ⟨rl, List.mem_cons_self _ _, rfl⟩, rfl, rfl⟩
      · obtain ⟨rec, hrec, hq⟩ := ih q h'
        obtain ⟨rl', hrl', hrec'⟩ := List.mem_map.mp hrec
        exact ⟨rec, List.mem_map.mpr ⟨rl', List.mem_cons_of_mem _ hrl', hrec'⟩, hq⟩

lemma crawlRound_inv (cfg : CrawlerConfig) (net : String → CrawlFetch)
    {s : CrawlState} (h : StateInv s) : StateInv (crawlRound cfg net s) := by
  obtain ⟨hnd, hq, hr⟩ := h
  unfold crawlRound
  simp only []
  constructor
  · exact filterBatch_nodup _ _ _ _ hnd
  constructor
  · intro q hmem
    rcases List.mem_append.mp hmem with hm | hm
    · exact parentLink_mono (hq q ((List.drop_subset _ _) hm))
    · obtain ⟨rec, hrec, hf, hd⟩ := processResults_snd _ _ q hm
      rw [← processResults_fst] at hrec
      exact Or.inr ⟨rec, List.mem_append_right _ hrec, hf, hd⟩
  · intro r hmem
    rcases List.mem_append.mp hmem with hm | hm
    · exact parentLink_mono (hr r hm)
    · rw [processResults_fst, List.map_map] at hm
      obtain ⟨item, hitem, hrec⟩ := List.mem_map.mp hm
      have hitem' : item ∈ s.queue :=
        (List.take_subset _ _) (filterBatch_subset _ _ _ _ item hitem)
      have hdf := crawlUrl_depth_from cfg net item
      have hpl := hq item hitem'
      subst hrec
      show ParentLink _ ((Prod.fst ∘ crawlUrl cfg net) item).depth
        ((Prod.fst ∘ crawlUrl cfg net) item).discoveredFrom
      rw [Function.comp_apply, hdf.1, hdf.2]
      exact parentLink_mono hpl

lemma crawlLoop_inv (cfg : CrawlerConfig) (net : String → CrawlFetch) :
    ∀ (fuel : Nat) {s : CrawlState}, StateInv s → StateInv (crawlLoop cfg net fuel s) := by
  intro fuel
  induction fuel with
  | zero => intro s h; exact h
  | succ n ih =>
      intro s h
      unfold crawlLoop
      split
      · exact h
      · exact ih (crawlRound_inv cfg net h)

/-- C5: in every (fuel-indexed) crawl run, the visited set holds no
duplicate normalized URLs, and every crawled record is the depth-0 seed or
sits one level below its discovering parent's record. -/
theorem c5_crawl_invariants (cfg : CrawlerConfig) (net : String → CrawlFetch)
    (fuel : Nat) :
    (crawlRun cfg net fuel).visited.Nodup ∧
    ∀ r ∈ (crawlRun cfg net fuel).records,
      (r.depth = 0 ∧ r.discoveredFrom = none) ∨
      ∃ p ∈ (crawlRun cfg net fuel).records,
        r.discoveredFrom = some p.url ∧ r.depth = p.depth + 1 := by
  have h0 : StateInv ⟨[⟨normalizeUrl cfg.sourceUrl, 0, none⟩], [], []⟩ := by
    refine ⟨List.nodup_nil, ?_, ?_⟩
    · intro q hmem
      rw [List.mem_singleton] at hmem
      subst hmem
      exact Or.inl ⟨rfl, rfl⟩
    · intro r hmem
      exact absurd hmem (List.not_mem_nil r)
  have h := crawlLoop_inv cfg net fuel h0
  exact ⟨h.1, h.2.2⟩

/-- The crawler configuration of the C5 witness run. -/
def c5wCfg : CrawlerConfig :=
  { sourceUrl := "http://s.example/", maxDepth := 2, concurrency := 1,
    exclude := fun _ => false }

/-- The network of the C5 witness run: the seed page links to `/a`, which
fails to fetch. -/
def c5wNet : String → CrawlFetch := fun u =>
  if u = "http://s.example/" then
    .page "http://s.example/" (some "Home") 200 ["http://s.example/a"]
  else .failed 0

/-- Closed witness for C5: the two-page run has duplicate-free visited URLs,
and the `/a` record points one level below its parent. -/
theorem c5_witness :
    (crawlRun c5wCfg c5wNet 3).visited.Nodup ∧
    (((⟨"http://s.example/a", "/a", none, 0, 1, some "http://s.example/"⟩ :
        CrawlRecord).depth = 0 ∧
      (⟨"http://s.example/a", "/a", none, 0, 1, some "http://s.example/"⟩ :
        CrawlRecord).discoveredFrom = none) ∨
     ∃ p ∈ (crawlRun c5wCfg c5wNet 3).records,
       (⟨"http://s.example/a", "/a", none, 0, 1, some "http://s.example/"⟩ :
         CrawlRecord).discoveredFrom = some p.url ∧
       (⟨"http://s.example/a", "/a", none, 0, 1, some "http://s.example/"⟩ :
         CrawlRecord).depth = p.depth + 1) :=
  ⟨(c5_crawl_invariants c5wCfg c5wNet 3).1,
   (c5_crawl_invariants c5wCfg c5wNet 3).2 _ (by decide)⟩

end UrlCheck
